import Mathlib

/-!
# Sequence store of `pkg/common/storage/database/mgo/seq_user.go`

A shallow embedding of the `seqUserMongo` store and of the part of the
document-store collaborator it talks to, followed by the properties of the
store's operations.

Conventions of the embedding.

* Go's `int64` is `Int`: the store only compares and copies sequence numbers,
  no arithmetic is performed on them, so no wrap-around can occur.
* A Go `map[K]V` is an association list with the operations `GoMap.get`,
  `GoMap.set`; a map value received from a caller has pairwise distinct keys.
* A Go result pair `(v, err)` is a Lean pair whose second component is
  `Option MongoError`, `none` being the `nil` error.
* The collection is a list of records in the collaborator's natural order,
  together with the number of collaborator calls made so far; the behaviour of
  the collaborator (which calls fail, and with what error) is a separate
  read-only schedule indexed by call number.
-/

namespace Mgo

/-! ## Errors -/

/-- Errors that the collaborator can report. `ErrNoDocuments` is the driver's
sentinel `mongo.ErrNoDocuments`; `wrap` is an error that wraps a cause, the way
`mongoutil` decorates driver errors. -/
inductive MongoError where
  | ErrNoDocuments
  | other (msg : String)
  | wrap (msg : String) (cause : MongoError)
deriving DecidableEq, Repr

/-- Go's `errors.Is(err, mongo.ErrNoDocuments)`: walks the chain of causes. -/
def errorsIsNoDocuments : MongoError → Bool
  | .ErrNoDocuments => true
  | .other _ => false
  | .wrap _ cause => errorsIsNoDocuments cause

/-! ## Go maps -/

/-- A Go map as an association list. -/
abbrev GoMap (κ : Type) (α : Type) := List (κ × α)

/-- The map index expression `v, ok := m[k]`. -/
def GoMap.get {κ α : Type} [DecidableEq κ] : GoMap κ α → κ → Option α
  | [], _ => none
  | (k, v) :: rest, key => if k = key then some v else GoMap.get rest key

/-- The map assignment `m[k] = v`. -/
def GoMap.set {κ α : Type} [DecidableEq κ] : GoMap κ α → κ → α → GoMap κ α
  | [], key, val => [(key, val)]
  | (k, v) :: rest, key, val =>
    if k = key then (k, val) :: rest else (k, v) :: GoMap.set rest key val

/-- The keys of a map. -/
def GoMap.keys {κ α : Type} (m : GoMap κ α) : List κ := m.map Prod.fst

/-! ## Documents -/

/-- Modelled from the spec: the struct `model.SeqUser`, whose declaration is in
`pkg/common/storage/model`; the fields follow the persisted record layout
`user_id, conversation_id, min_seq, max_seq, read_seq`. -/
structure SeqUser where
  UserID : String
  ConversationID : String
  MinSeq : Int
  MaxSeq : Int
  ReadSeq : Int
deriving DecidableEq, Repr

/-- The values that occur in the documents of the collection. -/
inductive BsonValue where
  | str (s : String)
  | int64 (n : Int)
deriving DecidableEq, Repr

/-- A `bson.M` whose values are plain values. -/
abbrev BsonM := List (String × BsonValue)

/-- The zero value of the struct, into which a document is decoded. -/
def SeqUser.zero : SeqUser :=
  { UserID := "", ConversationID := "", MinSeq := 0, MaxSeq := 0, ReadSeq := 0 }

/-- The value of the document field with the given bson name. -/
def SeqUser.field (d : SeqUser) (name : String) : Option BsonValue :=
  if name = "user_id" then some (.str d.UserID)
  else if name = "conversation_id" then some (.str d.ConversationID)
  else if name = "min_seq" then some (.int64 d.MinSeq)
  else if name = "max_seq" then some (.int64 d.MaxSeq)
  else if name = "read_seq" then some (.int64 d.ReadSeq)
  else none

/-- Writes one field of a document; a name outside the record layout, or a
value of the wrong type for the field, leaves the record as it is. -/
def SeqUser.setField (d : SeqUser) (name : String) (v : BsonValue) : SeqUser :=
  match v with
  | .str s =>
    if name = "user_id" then { d with UserID := s }
    else if name = "conversation_id" then { d with ConversationID := s }
    else d
  | .int64 n =>
    if name = "min_seq" then { d with MinSeq := n }
    else if name = "max_seq" then { d with MaxSeq := n }
    else if name = "read_seq" then { d with ReadSeq := n }
    else d

/-- Writes every entry of a `bson.M` into a document. -/
def SeqUser.setFields (d : SeqUser) (m : BsonM) : SeqUser :=
  m.foldl (fun acc kv => acc.setField kv.1 kv.2) d

/-- Go's `delete(m, key)` on a `bson.M`. -/
def bsonDelete (m : BsonM) (key : String) : BsonM :=
  m.filter (fun kv => decide (kv.1 ≠ key))

/-- A projection `name: 1, ...` followed by decoding into the struct: the fields
that are not projected keep their zero value. -/
def SeqUser.project (names : List String) (d : SeqUser) : SeqUser :=
  names.foldl
    (fun acc name => match d.field name with
      | some v => acc.setField name v
      | none => acc)
    SeqUser.zero

/-! ## The collaborator -/

/-- One condition of a query filter: equality with a value, or `$in` a list. -/
inductive Cond where
  | eq (v : BsonValue)
  | isIn (vs : List BsonValue)
deriving DecidableEq, Repr

/-- A query filter: the conjunction of one condition per named field. -/
abbrev Filter := List (String × Cond)

/-- Whether a document field satisfies a condition. -/
def Cond.holds (c : Cond) (v : Option BsonValue) : Bool :=
  match c, v with
  | .eq w, some x => decide (x = w)
  | .isIn ws, some x => decide (x ∈ ws)
  | _, none => false

/-- Whether a document satisfies a filter. -/
def matchesFilter (filter : Filter) (d : SeqUser) : Bool :=
  filter.all (fun kc => kc.2.holds (d.field kc.1))

/-- The update document `$set: ..., $setOnInsert: ...`. -/
structure UpdateDoc where
  set : BsonM
  setOnInsert : BsonM
deriving DecidableEq, Repr

/-- The fields that the equality conditions of a filter give to an upserted
document. -/
def filterEqualities : Filter → BsonM
  | [] => []
  | (name, .eq v) :: rest => (name, v) :: filterEqualities rest
  | (_, .isIn _) :: rest => filterEqualities rest

/-- The document inserted by an upsert that matched nothing: the equality
fields of the filter, then `$setOnInsert`, then `$set`. -/
def upsertedDoc (filter : Filter) (update : UpdateDoc) : SeqUser :=
  ((SeqUser.zero.setFields (filterEqualities filter)).setFields
    update.setOnInsert).setFields update.set

/-- Applies a change to the first document that satisfies the predicate. -/
def updateFirst (p : SeqUser → Bool) (f : SeqUser → SeqUser) :
    List SeqUser → List SeqUser
  | [] => []
  | d :: rest => if p d then f d :: rest else d :: updateFirst p f rest

/-- The behaviour of the collaborator: call number `n` fails with `e` when the
schedule gives `some e` at `n`, and follows its contract otherwise. -/
abbrev Collaborator := Nat → Option MongoError

/-- The collection: its documents in natural order, and the number of
collaborator calls made on it so far. -/
structure Collection where
  docs : List SeqUser
  calls : Nat
deriving DecidableEq, Repr

/-- The state after one more collaborator call that left the documents alone. -/
def Collection.tick (s : Collection) : Collection :=
  { docs := s.docs, calls := s.calls + 1 }

/-- Modelled from the spec: the collaborator operation `UpsertOne`, reached
through `mongoutil.UpdateOne(ctx, coll, filter, update, notMatchedErr, opt)` of
an external library. It updates the first matching document in natural order;
with the upsert option a document is inserted when none matches, and
`$setOnInsert` applies only then. As in the document store, an update whose
`$set` and `$setOnInsert` name the same field is rejected; a failed call writes
nothing. -/
def UpdateOne (env : Collaborator) (s : Collection) (filter : Filter)
    (update : UpdateDoc) (notMatchedErr : Bool) (upsert : Bool) :
    Option MongoError × Collection :=
  match env s.calls with
  | some e => (some e, s.tick)
  | none =>
    if update.set.any (fun kv => update.setOnInsert.any (fun kw => decide (kw.1 = kv.1))) then
      (some (.other "conflicting update paths"), s.tick)
    else if s.docs.any (matchesFilter filter) then
      (none, { docs := updateFirst (matchesFilter filter) (fun d => d.setFields update.set) s.docs,
               calls := s.calls + 1 })
    else if upsert then
      (none, { docs := s.docs ++ [upsertedDoc filter update], calls := s.calls + 1 })
    else
      (if notMatchedErr then some (.other "record not found") else none, s.tick)

/-- Modelled from the spec: the collaborator operation `FindOne`, reached
through `mongoutil.FindOne[int64]` of an external library with the projection
`_id: 0, name: 1`. It yields the projected field of the first matching document
in natural order, or `mongo.ErrNoDocuments` when nothing matches. -/
def FindOne (env : Collaborator) (s : Collection) (filter : Filter) (name : String) :
    Except MongoError Int × Collection :=
  match env s.calls with
  | some e => (.error e, s.tick)
  | none =>
    match s.docs.find? (matchesFilter filter) with
    | none => (.error .ErrNoDocuments, s.tick)
    | some d =>
      match d.field name with
      | some (.int64 n) => (.ok n, s.tick)
      | _ => (.error (.other "cannot decode into int64"), s.tick)

/-- Modelled from the spec: the collaborator operation `FindMany`, reached
through `mongoutil.Find[*model.SeqUser]` of an external library with a
projection. It yields every matching document, in natural order, decoded from
its projected fields. -/
def Find (env : Collaborator) (s : Collection) (filter : Filter) (names : List String) :
    Except MongoError (List SeqUser) × Collection :=
  match env s.calls with
  | some e => (.error e, s.tick)
  | none => (.ok ((s.docs.filter (matchesFilter filter)).map (SeqUser.project names)), s.tick)

/-! ## The store -/

/-- The method `seqUserMongo.setSeq`. -/
def setSeq (env : Collaborator) (conversationID userID : String) (seq : Int)
    (field : String) (s : Collection) : Option MongoError × Collection :=
  let filter : Filter :=
    [("user_id", .eq (.str userID)), ("conversation_id", .eq (.str conversationID))]
  let insert : BsonM :=
    [("user_id", .str userID), ("conversation_id", .str conversationID),
     ("min_seq", .int64 0), ("max_seq", .int64 0), ("read_seq", .int64 0)]
  let insert := bsonDelete insert field
  let update : UpdateDoc := { set := [(field, .int64 seq)], setOnInsert := insert }
  UpdateOne env s filter update false true

/-- The method `seqUserMongo.getSeq`. -/
def getSeq (env : Collaborator) (conversationID userID : String) (failed : String)
    (s : Collection) : (Int × Option MongoError) × Collection :=
  let filter : Filter :=
    [("user_id", .eq (.str userID)), ("conversation_id", .eq (.str conversationID))]
  match FindOne env s filter failed with
  | (.ok seq, s1) => ((seq, none), s1)
  | (.error err, s1) =>
    if errorsIsNoDocuments err then ((0, none), s1) else ((0, some err), s1)

/-- The method `GetUserMaxSeq`. -/
def GetUserMaxSeq (env : Collaborator) (conversationID userID : String) (s : Collection) :
    (Int × Option MongoError) × Collection :=
  getSeq env conversationID userID "max_seq" s

/-- The method `SetUserMaxSeq`. -/
def SetUserMaxSeq (env : Collaborator) (conversationID userID : String) (seq : Int)
    (s : Collection) : Option MongoError × Collection :=
  setSeq env conversationID userID seq "max_seq" s

/-- The method `GetUserMinSeq`. -/
def GetUserMinSeq (env : Collaborator) (conversationID userID : String) (s : Collection) :
    (Int × Option MongoError) × Collection :=
  getSeq env conversationID userID "min_seq" s

/-- The method `SetUserMinSeq`. -/
def SetUserMinSeq (env : Collaborator) (conversationID userID : String) (seq : Int)
    (s : Collection) : Option MongoError × Collection :=
  setSeq env conversationID userID seq "min_seq" s

/-- The method `GetUserReadSeq`. -/
def GetUserReadSeq (env : Collaborator) (conversationID userID : String) (s : Collection) :
    (Int × Option MongoError) × Collection :=
  getSeq env conversationID userID "read_seq" s

/-- The method `notFoundSet0`. -/
def notFoundSet0 (seq : GoMap String Int) (conversationIDs : List String) : GoMap String Int :=
  conversationIDs.foldl
    (fun acc conversationID =>
      match acc.get conversationID with
      | some _ => acc
      | none => acc.set conversationID 0)
    seq

/-- The method `GetUserReadSeqs`; a failed call returns Go's `nil` map, which
reads as the empty map. -/
def GetUserReadSeqs (env : Collaborator) (userID : String) (conversationID : List String)
    (s : Collection) : (GoMap String Int × Option MongoError) × Collection :=
  if conversationID.length = 0 then (([], none), s)
  else
    let filter : Filter :=
      [("user_id", .eq (.str userID)),
       ("conversation_id", .isIn (conversationID.map BsonValue.str))]
    match Find env s filter ["conversation_id", "read_seq"] with
    | (.error err, s1) => (([], some err), s1)
    | (.ok seqs, s1) =>
      let res : GoMap String Int :=
        seqs.foldl (fun acc seq => acc.set seq.ConversationID seq.ReadSeq) []
      ((notFoundSet0 res conversationID, none), s1)

/-- The method `SetUserReadSeq`. -/
def SetUserReadSeq (env : Collaborator) (conversationID userID : String) (seq : Int)
    (s : Collection) : Option MongoError × Collection :=
  match GetUserReadSeq env conversationID userID s with
  | ((_, some err), s1) => (some err, s1)
  | ((dbSeq, none), s1) =>
    if dbSeq > seq then (none, s1)
    else setSeq env conversationID userID seq "read_seq" s1

/-- The first loop of `GetConversationsUserReadSeqs`: the list of requested
conversation IDs and, per conversation, the set of requested users. -/
def collectRequest (conversationUserIDs : GoMap String (List String)) :
    List String × GoMap String (GoMap String Unit) :=
  conversationUserIDs.foldl
    (fun acc entry =>
      let set : GoMap String Unit :=
        entry.2.foldl (fun st uid => st.set uid ()) []
      (acc.1 ++ [entry.1], acc.2.set entry.1 set))
    ([], [])

/-- The body of the second loop of `GetConversationsUserReadSeqs`: a record of a
requested user is stored in the inner mapping of its conversation, which is
created on first use. -/
def groupStep (userIDSets : GoMap String (GoMap String Unit))
    (res : GoMap String (GoMap String Int)) (seq : SeqUser) : GoMap String (GoMap String Int) :=
  match userIDSets.get seq.ConversationID with
  | none => res
  | some userSet =>
    match userSet.get seq.UserID with
    | none => res
    | some _ =>
      let inner : GoMap String Int :=
        match res.get seq.ConversationID with
        | none => []
        | some m => m
      res.set seq.ConversationID (inner.set seq.UserID seq.ReadSeq)

/-- The second loop of `GetConversationsUserReadSeqs`: keeps the records of the
requested users and groups them by conversation. -/
def groupRequested (userIDSets : GoMap String (GoMap String Unit)) (seqs : List SeqUser) :
    GoMap String (GoMap String Int) :=
  seqs.foldl (groupStep userIDSets) []

/-- The method `GetConversationsUserReadSeqs`; a failed call returns Go's `nil`
map, which reads as the empty map. -/
def GetConversationsUserReadSeqs (env : Collaborator)
    (conversationUserIDs : GoMap String (List String)) (s : Collection) :
    (GoMap String (GoMap String Int) × Option MongoError) × Collection :=
  if conversationUserIDs.length = 0 then (([], none), s)
  else
    let collected := collectRequest conversationUserIDs
    let conversationIDs := collected.1
    let userIDSets := collected.2
    let filter : Filter := [("conversation_id", .isIn (conversationIDs.map BsonValue.str))]
    match Find env s filter ["conversation_id", "user_id", "read_seq"] with
    | (.error err, s1) => (([], some err), s1)
    | (.ok seqs, s1) => ((groupRequested userIDSets seqs, none), s1)

/-! ## Vocabulary of the properties -/

/-- A collaborator that never fails. -/
def Reliable (env : Collaborator) : Prop := ∀ n, env n = none

/-- Whether a record belongs to the key `(userID, conversationID)`. -/
def hasKey (conversationID userID : String) (d : SeqUser) : Bool :=
  decide (d.UserID = userID ∧ d.ConversationID = conversationID)

/-- Every `(userID, conversationID)` key has at most one record. -/
def UniqueKeys (docs : List SeqUser) : Prop :=
  ∀ conversationID userID, (docs.filter (hasKey conversationID userID)).length ≤ 1

/-- The key has a record in the store. -/
def HasRecord (docs : List SeqUser) (conversationID userID : String) : Prop :=
  ∃ d ∈ docs, d.UserID = userID ∧ d.ConversationID = conversationID

/-- The key of a record. -/
def keyOf (d : SeqUser) : String × String := (d.UserID, d.ConversationID)

/-- The filter that `setSeq` and `getSeq` build for a key. -/
def keyFilter (conversationID userID : String) : Filter :=
  [("user_id", .eq (.str userID)), ("conversation_id", .eq (.str conversationID))]

/-- The first record of a key in natural order, if there is one. -/
def firstOfKey (docs : List SeqUser) (conversationID userID : String) : Option SeqUser :=
  docs.find? (hasKey conversationID userID)

/-- The counter that a point read reports for a key: the counter of the first
record of the key, and 0 when the key has no record. -/
def counterOf (sel : SeqUser → Int) (docs : List SeqUser) (conversationID userID : String) :
    Int :=
  match firstOfKey docs conversationID userID with
  | some d => sel d
  | none => 0

/-- The documents after an upsert on a key: the first record of the key is
changed by `f`, or `fresh` is appended when the key has no record. -/
def upsertKey (conversationID userID : String) (f : SeqUser → SeqUser) (fresh : SeqUser)
    (docs : List SeqUser) : List SeqUser :=
  if docs.any (hasKey conversationID userID) then
    updateFirst (hasKey conversationID userID) f docs
  else docs ++ [fresh]

/-- The mapping that the result loop of `GetUserReadSeqs` builds from the records
that its query returns, before the missing conversations are filled in. -/
def queriedReadSeqs (docs : List SeqUser) (userID : String) (conversationID : List String) :
    GoMap String Int :=
  ((docs.filter (fun d => decide (d.UserID = userID ∧ d.ConversationID ∈ conversationID))).map
      (SeqUser.project ["conversation_id", "read_seq"])).foldl
    (fun acc seq => acc.set seq.ConversationID seq.ReadSeq) []

/-- The nested index expression `v, ok := r[c][u]`; indexing a missing inner
map finds nothing. -/
def GoMap.get2 (r : GoMap String (GoMap String Int)) (c u : String) : Option Int :=
  match r.get c with
  | none => none
  | some inner => inner.get u

/-- The request mapping asks for user `u` in conversation `c`. -/
def Requested (m : GoMap String (List String)) (c u : String) : Prop :=
  ∃ us, m.get c = some us ∧ u ∈ us

/-- The type of the three point getters. -/
abbrev PointGetter :=
  Collaborator → String → String → Collection → (Int × Option MongoError) × Collection

/-- The three point getters, each with the field it reads. -/
def pointGetters : List (String × PointGetter) :=
  [("max_seq", GetUserMaxSeq), ("min_seq", GetUserMinSeq), ("read_seq", GetUserReadSeq)]

/-- The collaborator that fails every call. -/
def alwaysFails : Collaborator := fun _ => some (.other "unavailable")

/-- The collaborator that never fails. -/
def neverFails : Collaborator := fun _ => none

/-! ## The collaborator calls of the store, evaluated -/

theorem matchesFilter_key (c u : String) :
    matchesFilter [("user_id", .eq (.str u)), ("conversation_id", .eq (.str c))]
      = hasKey c u := by
  funext d
  simp [matchesFilter, Cond.holds, SeqUser.field, hasKey]

/-- What the lookup of `getSeq` yields when the call does not fail. -/
theorem FindOne_key (env : Collaborator) (s : Collection) (c u name : String)
    (h : env s.calls = none) :
    FindOne env s [("user_id", .eq (.str u)), ("conversation_id", .eq (.str c))] name
      = (match firstOfKey s.docs c u with
          | none => .error .ErrNoDocuments
          | some d =>
            match d.field name with
            | some (.int64 n) => .ok n
            | _ => .error (.other "cannot decode into int64"), s.tick) := by
  unfold FindOne
  rw [h, matchesFilter_key]
  simp only [firstOfKey]
  cases s.docs.find? (hasKey c u) with
  | none => rfl
  | some d =>
    simp only
    split <;> simp_all

theorem getSeq_max (env : Collaborator) (s : Collection) (c u : String)
    (h : env s.calls = none) :
    GetUserMaxSeq env c u s = ((counterOf SeqUser.MaxSeq s.docs c u, none), s.tick) := by
  unfold GetUserMaxSeq getSeq
  simp only [FindOne_key env s c u _ h, counterOf]
  cases firstOfKey s.docs c u <;> simp [SeqUser.field, errorsIsNoDocuments]

theorem getSeq_min (env : Collaborator) (s : Collection) (c u : String)
    (h : env s.calls = none) :
    GetUserMinSeq env c u s = ((counterOf SeqUser.MinSeq s.docs c u, none), s.tick) := by
  unfold GetUserMinSeq getSeq
  simp only [FindOne_key env s c u _ h, counterOf]
  cases firstOfKey s.docs c u <;> simp [SeqUser.field, errorsIsNoDocuments]

theorem getSeq_read (env : Collaborator) (s : Collection) (c u : String)
    (h : env s.calls = none) :
    GetUserReadSeq env c u s = ((counterOf SeqUser.ReadSeq s.docs c u, none), s.tick) := by
  unfold GetUserReadSeq getSeq
  simp only [FindOne_key env s c u _ h, counterOf]
  cases firstOfKey s.docs c u <;> simp [SeqUser.field, errorsIsNoDocuments]

theorem setSeq_max (env : Collaborator) (s : Collection) (c u : String) (seq : Int)
    (h : env s.calls = none) :
    SetUserMaxSeq env c u seq s
      = (none, { docs := upsertKey c u (fun d => { d with MaxSeq := seq })
                   { UserID := u, ConversationID := c, MinSeq := 0, MaxSeq := seq, ReadSeq := 0 }
                   s.docs,
                 calls := s.calls + 1 }) := by
  unfold SetUserMaxSeq setSeq UpdateOne
  simp only [h, matchesFilter_key, upsertKey]
  simp [bsonDelete, upsertedDoc, SeqUser.setFields, SeqUser.setField, filterEqualities,
    SeqUser.zero]
  split <;> rfl

theorem setSeq_min (env : Collaborator) (s : Collection) (c u : String) (seq : Int)
    (h : env s.calls = none) :
    SetUserMinSeq env c u seq s
      = (none, { docs := upsertKey c u (fun d => { d with MinSeq := seq })
                   { UserID := u, ConversationID := c, MinSeq := seq, MaxSeq := 0, ReadSeq := 0 }
                   s.docs,
                 calls := s.calls + 1 }) := by
  unfold SetUserMinSeq setSeq UpdateOne
  simp only [h, matchesFilter_key, upsertKey]
  simp [bsonDelete, upsertedDoc, SeqUser.setFields, SeqUser.setField, filterEqualities,
    SeqUser.zero]
  split <;> rfl

theorem setSeq_read (env : Collaborator) (s : Collection) (c u : String) (seq : Int)
    (h : env s.calls = none) :
    setSeq env c u seq "read_seq" s
      = (none, { docs := upsertKey c u (fun d => { d with ReadSeq := seq })
                   { UserID := u, ConversationID := c, MinSeq := 0, MaxSeq := 0, ReadSeq := seq }
                   s.docs,
                 calls := s.calls + 1 }) := by
  unfold setSeq UpdateOne
  simp only [h, matchesFilter_key, upsertKey]
  simp [bsonDelete, upsertedDoc, SeqUser.setFields, SeqUser.setField, filterEqualities,
    SeqUser.zero]
  split <;> rfl

/-- A failing collaborator call makes `setSeq` fail with the same error and
write nothing. -/
theorem setSeq_fail (env : Collaborator) (s : Collection) (c u field : String) (seq : Int)
    (e : MongoError) (h : env s.calls = some e) :
    setSeq env c u seq field s = (some e, s.tick) := by
  unfold setSeq UpdateOne
  simp only [h]

/-- A successful `setSeq` means that its collaborator call did not fail. -/
theorem setSeq_success (env : Collaborator) (s : Collection) (c u field : String) (seq : Int)
    (h : (setSeq env c u seq field s).1 = none) : env s.calls = none := by
  cases hc : env s.calls with
  | none => rfl
  | some e =>
    rw [setSeq_fail env s c u field seq e hc] at h
    cases h

/-! ## Keys and upserts -/

theorem hasKey_iff (c u : String) (d : SeqUser) :
    hasKey c u d = true ↔ keyOf d = (u, c) := by
  simp [hasKey, keyOf]

theorem any_hasKey_iff (docs : List SeqUser) (c u : String) :
    docs.any (hasKey c u) = true ↔ HasRecord docs c u := by
  simp [HasRecord, hasKey, List.any_eq_true]

theorem firstOfKey_eq_none_iff (docs : List SeqUser) (c u : String) :
    firstOfKey docs c u = none ↔ ¬ HasRecord docs c u := by
  simp [firstOfKey, HasRecord, hasKey, List.find?_eq_none]

theorem firstOfKey_some_mem {docs : List SeqUser} {c u : String} {d : SeqUser}
    (h : firstOfKey docs c u = some d) : d ∈ docs ∧ d.UserID = u ∧ d.ConversationID = c := by
  unfold firstOfKey at h
  have h1 := List.mem_of_find?_eq_some h
  have h2 := List.find?_some h
  simp [hasKey] at h2
  exact ⟨h1, h2⟩

theorem hasRecord_iff_mem_keys (docs : List SeqUser) (c u : String) :
    HasRecord docs c u ↔ (u, c) ∈ docs.map keyOf := by
  simp [HasRecord, keyOf, List.mem_map]

theorem countP_hasKey_eq_zero (docs : List SeqUser) (c u : String)
    (h : ¬ HasRecord docs c u) : List.countP (hasKey c u) docs = 0 := by
  rw [List.countP_eq_zero]
  intro d hd hk
  apply h
  rw [hasKey_iff] at hk
  exact ⟨d, hd, by simpa [keyOf] using hk⟩

theorem uniqueKeys_cons (d : SeqUser) (rest : List SeqUser) :
    UniqueKeys (d :: rest)
      ↔ ¬ HasRecord rest d.ConversationID d.UserID ∧ UniqueKeys rest := by
  simp only [UniqueKeys, ← List.countP_eq_length_filter, List.countP_cons]
  constructor
  · intro h
    refine ⟨?_, ?_⟩
    · rintro ⟨e, he, hu, hc⟩
      have h1 := h d.ConversationID d.UserID
      have h2 : hasKey d.ConversationID d.UserID d = true := by simp [hasKey]
      have h3 : 0 < List.countP (hasKey d.ConversationID d.UserID) rest :=
        List.countP_pos_iff.2 ⟨e, he, by simp [hasKey, hu, hc]⟩
      rw [if_pos h2] at h1
      omega
    · intro c u
      have h1 := h c u
      omega
  · rintro ⟨hno, hr⟩ c u
    by_cases hk : hasKey c u d = true
    · rw [if_pos hk]
      have hk2 := (hasKey_iff c u d).1 hk
      simp only [keyOf, Prod.mk.injEq] at hk2
      have : List.countP (hasKey c u) rest = 0 := by
        apply countP_hasKey_eq_zero
        rw [← hk2.1, ← hk2.2]
        exact hno
      omega
    · rw [if_neg hk]
      have := hr c u
      omega

theorem uniqueKeys_iff_nodup (docs : List SeqUser) :
    UniqueKeys docs ↔ (docs.map keyOf).Nodup := by
  induction docs with
  | nil => simp [UniqueKeys]
  | cons d rest ih =>
    rw [uniqueKeys_cons, List.map_cons, List.nodup_cons, ih, hasRecord_iff_mem_keys]
    rfl

theorem updateFirst_keys (p : SeqUser → Bool) (f : SeqUser → SeqUser)
    (hf : ∀ d, keyOf (f d) = keyOf d) (docs : List SeqUser) :
    (updateFirst p f docs).map keyOf = docs.map keyOf := by
  induction docs with
  | nil => rfl
  | cons d rest ih =>
    unfold updateFirst
    split
    · simp [hf]
    · simp [ih]

theorem upsertKey_keys (c u : String) (f : SeqUser → SeqUser) (fresh : SeqUser)
    (hf : ∀ d, keyOf (f d) = keyOf d) (hfresh : keyOf fresh = (u, c)) (docs : List SeqUser) :
    (upsertKey c u f fresh docs).map keyOf
      = if docs.any (hasKey c u) then docs.map keyOf else docs.map keyOf ++ [(u, c)] := by
  unfold upsertKey
  split
  · exact updateFirst_keys _ f hf docs
  · simp [hfresh]

theorem upsertKey_unique (c u : String) (f : SeqUser → SeqUser) (fresh : SeqUser)
    (hf : ∀ d, keyOf (f d) = keyOf d) (hfresh : keyOf fresh = (u, c)) (docs : List SeqUser)
    (h : UniqueKeys docs) : UniqueKeys (upsertKey c u f fresh docs) := by
  rw [uniqueKeys_iff_nodup] at h ⊢
  rw [upsertKey_keys c u f fresh hf hfresh]
  split
  · exact h
  · rename_i hany
    have hno : (u, c) ∉ docs.map keyOf := by
      intro hmem
      apply hany
      obtain ⟨d, hd, hk⟩ := List.mem_map.1 hmem
      exact List.any_eq_true.2 ⟨d, hd, (hasKey_iff c u d).2 hk⟩
    exact List.Nodup.append h (List.nodup_singleton _) (by simpa using hno)

theorem upsertKey_hasRecord (c u : String) (f : SeqUser → SeqUser) (fresh : SeqUser)
    (hf : ∀ d, keyOf (f d) = keyOf d) (hfresh : keyOf fresh = (u, c)) (docs : List SeqUser)
    (c1 u1 : String) :
    HasRecord (upsertKey c u f fresh docs) c1 u1
      ↔ HasRecord docs c1 u1 ∨ (c1 = c ∧ u1 = u) := by
  have key : ∀ l : List SeqUser, HasRecord l c1 u1 ↔ (u1, c1) ∈ l.map keyOf := by
    intro l
    simp [HasRecord, keyOf, List.mem_map]
  rw [key, key, upsertKey_keys c u f fresh hf hfresh]
  split
  · rename_i hany
    constructor
    · exact Or.inl
    · rintro (h | ⟨rfl, rfl⟩)
      · exact h
      · exact (key docs).1 ((any_hasKey_iff docs c1 u1).1 hany)
  · simp only [List.mem_append, List.mem_singleton, Prod.mk.injEq]
    tauto

theorem firstOfKey_updateFirst_same (c u : String) (f : SeqUser → SeqUser)
    (hf : ∀ d, keyOf (f d) = keyOf d) (docs : List SeqUser) :
    firstOfKey (updateFirst (hasKey c u) f docs) c u = (firstOfKey docs c u).map f := by
  induction docs with
  | nil => rfl
  | cons d rest ih =>
    unfold updateFirst
    cases hk : hasKey c u d with
    | true =>
      have hk2 : hasKey c u (f d) = true := by
        rw [hasKey_iff] at hk ⊢
        rw [hf, hk]
      simp [firstOfKey, List.find?_cons, hk, hk2]
    | false =>
      simp only [firstOfKey, List.find?_cons, hk, Bool.false_eq_true, if_false] at ih ⊢
      exact ih

theorem firstOfKey_updateFirst_other (c u c1 u1 : String) (f : SeqUser → SeqUser)
    (hf : ∀ d, keyOf (f d) = keyOf d) (hne : (u1, c1) ≠ (u, c)) (docs : List SeqUser) :
    firstOfKey (updateFirst (hasKey c u) f docs) c1 u1 = firstOfKey docs c1 u1 := by
  induction docs with
  | nil => rfl
  | cons d rest ih =>
    unfold updateFirst
    cases hk : hasKey c u d with
    | true =>
      have h1 : hasKey c1 u1 d = false := by
        cases hb : hasKey c1 u1 d with
        | false => rfl
        | true =>
          rw [hasKey_iff] at hk hb
          exact absurd (hb.symm.trans hk) hne
      have h2 : hasKey c1 u1 (f d) = false := by
        cases hb : hasKey c1 u1 (f d) with
        | false => rfl
        | true =>
          rw [hasKey_iff] at hk hb
          rw [hf] at hb
          exact absurd (hb.symm.trans hk) hne
      simp [firstOfKey, List.find?_cons, h1, h2]
    | false =>
      simp only [firstOfKey, List.find?_cons, Bool.false_eq_true, if_false] at ih ⊢
      rw [ih]

theorem firstOfKey_upsertKey_same (c u : String) (f : SeqUser → SeqUser) (fresh : SeqUser)
    (hf : ∀ d, keyOf (f d) = keyOf d) (hfresh : keyOf fresh = (u, c)) (docs : List SeqUser) :
    firstOfKey (upsertKey c u f fresh docs) c u
      = some (match firstOfKey docs c u with
              | some d => f d
              | none => fresh) := by
  unfold upsertKey
  split
  · rename_i hany
    rw [firstOfKey_updateFirst_same c u f hf]
    cases hfo : firstOfKey docs c u with
    | some d => rfl
    | none =>
      exact absurd ((any_hasKey_iff docs c u).1 hany) ((firstOfKey_eq_none_iff docs c u).1 hfo)
  · rename_i hany
    have hnone : firstOfKey docs c u = none :=
      (firstOfKey_eq_none_iff docs c u).2 (fun h => hany ((any_hasKey_iff docs c u).2 h))
    have hk : hasKey c u fresh = true := (hasKey_iff c u fresh).2 hfresh
    unfold firstOfKey at hnone ⊢
    rw [List.find?_append, hnone]
    simp [List.find?_cons, hk]

theorem firstOfKey_upsertKey_other (c u c1 u1 : String) (f : SeqUser → SeqUser)
    (fresh : SeqUser) (hf : ∀ d, keyOf (f d) = keyOf d) (hfresh : keyOf fresh = (u, c))
    (hne : (u1, c1) ≠ (u, c)) (docs : List SeqUser) :
    firstOfKey (upsertKey c u f fresh docs) c1 u1 = firstOfKey docs c1 u1 := by
  unfold upsertKey
  split
  · exact firstOfKey_updateFirst_other c u c1 u1 f hf hne docs
  · have hk : hasKey c1 u1 fresh = false := by
      cases hb : hasKey c1 u1 fresh with
      | false => rfl
      | true =>
        rw [hasKey_iff] at hb
        exact absurd (hb.symm.trans hfresh) hne
    unfold firstOfKey
    rw [List.find?_append]
    cases List.find? (hasKey c1 u1) docs <;> simp [List.find?_cons, hk]

theorem counterOf_upsertKey_same (sel : SeqUser → Int) (c u : String) (f : SeqUser → SeqUser)
    (fresh : SeqUser) (hf : ∀ d, keyOf (f d) = keyOf d) (hfresh : keyOf fresh = (u, c))
    (docs : List SeqUser) :
    counterOf sel (upsertKey c u f fresh docs) c u
      = (match firstOfKey docs c u with
         | some d => sel (f d)
         | none => sel fresh) := by
  unfold counterOf
  rw [firstOfKey_upsertKey_same c u f fresh hf hfresh]
  cases firstOfKey docs c u <;> rfl

theorem counterOf_upsertKey_other (sel : SeqUser → Int) (c u c1 u1 : String)
    (f : SeqUser → SeqUser) (fresh : SeqUser) (hf : ∀ d, keyOf (f d) = keyOf d)
    (hfresh : keyOf fresh = (u, c)) (hne : (u1, c1) ≠ (u, c)) (docs : List SeqUser) :
    counterOf sel (upsertKey c u f fresh docs) c1 u1 = counterOf sel docs c1 u1 := by
  unfold counterOf
  rw [firstOfKey_upsertKey_other c u c1 u1 f fresh hf hfresh hne]

theorem counterOf_no_record (sel : SeqUser → Int) (docs : List SeqUser) (c u : String)
    (h : ¬ HasRecord docs c u) : counterOf sel docs c u = 0 := by
  unfold counterOf
  rw [(firstOfKey_eq_none_iff docs c u).2 h]

/-- What `SetUserReadSeq` does when neither of its collaborator calls fails. -/
theorem SetUserReadSeq_eval (env : Collaborator) (s : Collection) (c u : String) (seq : Int)
    (h0 : env s.calls = none) (h1 : env (s.calls + 1) = none) :
    SetUserReadSeq env c u seq s
      = if counterOf SeqUser.ReadSeq s.docs c u > seq then (none, s.tick)
        else (none, { docs := upsertKey c u (fun d => { d with ReadSeq := seq })
                        { UserID := u, ConversationID := c, MinSeq := 0, MaxSeq := 0,
                          ReadSeq := seq } s.docs,
                      calls := s.calls + 2 }) := by
  unfold SetUserReadSeq
  rw [getSeq_read env s c u h0]
  simp only
  split
  · rfl
  · rw [setSeq_read env s.tick c u seq h1]
    rfl

/-- C1: with a collaborator that does not fail, `SetUserReadSeq(c,u,seq)` reports
success, afterwards `GetUserReadSeq(c,u)` returns the maximum of `seq` and of the
value it returned before the call (which is 0 when the key has no record), so the
read position is never lower than before, and `GetUserMinSeq(c,u)` and
`GetUserMaxSeq(c,u)` return what they returned before. -/
theorem SetUserReadSeq_monotone (env : Collaborator) (s : Collection) (c u : String)
    (seq : Int) (_hu : UniqueKeys s.docs) (hr : Reliable env) :
    (SetUserReadSeq env c u seq s).1 = none
    ∧ (GetUserReadSeq env c u (SetUserReadSeq env c u seq s).2).1
        = (max (GetUserReadSeq env c u s).1.1 seq, none)
    ∧ (¬ HasRecord s.docs c u → (GetUserReadSeq env c u s).1.1 = 0)
    ∧ (GetUserReadSeq env c u s).1.1
        ≤ (GetUserReadSeq env c u (SetUserReadSeq env c u seq s).2).1.1
    ∧ (GetUserMinSeq env c u (SetUserReadSeq env c u seq s).2).1
        = (GetUserMinSeq env c u s).1
    ∧ (GetUserMaxSeq env c u (SetUserReadSeq env c u seq s).2).1
        = (GetUserMaxSeq env c u s).1 := by
  have hk : ∀ d : SeqUser, keyOf ({ d with ReadSeq := seq } : SeqUser) = keyOf d :=
    fun _ => rfl
  rw [SetUserReadSeq_eval env s c u seq (hr _) (hr _)]
  simp only [getSeq_read env _ c u (hr _), getSeq_min env _ c u (hr _),
    getSeq_max env _ c u (hr _)]
  by_cases hgt : counterOf SeqUser.ReadSeq s.docs c u > seq
  · rw [if_pos hgt]
    simp only [Collection.tick, true_and, le_refl, and_true]
    refine ⟨?_, counterOf_no_record _ _ _ _⟩
    rw [max_eq_left (le_of_lt hgt)]
  · rw [if_neg hgt]
    have hle : counterOf SeqUser.ReadSeq s.docs c u ≤ seq := not_lt.1 hgt
    simp only [true_and]
    rw [counterOf_upsertKey_same SeqUser.ReadSeq c u _ ⟨u, c, 0, 0, seq⟩ hk rfl,
      counterOf_upsertKey_same SeqUser.MinSeq c u _ ⟨u, c, 0, 0, seq⟩ hk rfl,
      counterOf_upsertKey_same SeqUser.MaxSeq c u _ ⟨u, c, 0, 0, seq⟩ hk rfl]
    refine ⟨?_, counterOf_no_record _ _ _ _, ?_, ?_, ?_⟩
    · rw [max_eq_right hle]
      cases firstOfKey s.docs c u <;> rfl
    · have : (match firstOfKey s.docs c u with
              | some d => ({ d with ReadSeq := seq } : SeqUser).ReadSeq
              | none => seq) = seq := by
        cases firstOfKey s.docs c u <;> rfl
      simp only at this ⊢
      rw [this]
      exact hle
    · unfold counterOf
      cases firstOfKey s.docs c u <;> rfl
    · unfold counterOf
      cases firstOfKey s.docs c u <;> rfl

theorem uniqueKeys_single (d : SeqUser) : UniqueKeys [d] := by
  rw [uniqueKeys_iff_nodup]
  simp

/-- C1 on the scenario of the specification: a regression attempt from 15 to 12. -/
theorem SetUserReadSeq_monotone_witness :
    UniqueKeys [(⟨"u", "c", 10, 20, 15⟩ : SeqUser)] ∧ Reliable neverFails
    ∧ (SetUserReadSeq neverFails "c" "u" 12 ⟨[⟨"u", "c", 10, 20, 15⟩], 0⟩).1 = none
    ∧ (GetUserReadSeq neverFails "c" "u"
        (SetUserReadSeq neverFails "c" "u" 12 ⟨[⟨"u", "c", 10, 20, 15⟩], 0⟩).2).1
        = (max (GetUserReadSeq neverFails "c" "u" ⟨[⟨"u", "c", 10, 20, 15⟩], 0⟩).1.1 12, none) :=
  have h := SetUserReadSeq_monotone neverFails ⟨[⟨"u", "c", 10, 20, 15⟩], 0⟩ "c" "u" 12
    (uniqueKeys_single _) (fun _ => rfl)
  ⟨uniqueKeys_single _, fun _ => rfl, h.1, h.2.1⟩

/-- A lookup is one collaborator call and leaves the documents alone. -/
theorem FindOne_state (env : Collaborator) (s : Collection) (filter : Filter) (name : String) :
    (FindOne env s filter name).2 = s.tick := by
  unfold FindOne
  split
  · rfl
  · split
    · rfl
    · split <;> rfl

/-- The result of `getSeq` in terms of the result of its lookup. -/
theorem getSeq_eq (env : Collaborator) (s : Collection) (c u name : String) :
    getSeq env c u name s
      = (match (FindOne env s (keyFilter c u) name).1 with
          | .ok seq => (seq, none)
          | .error err => if errorsIsNoDocuments err then (0, none) else (0, some err),
         s.tick) := by
  unfold getSeq
  have hs := FindOne_state env s (keyFilter c u) name
  unfold keyFilter at hs ⊢
  dsimp only
  generalize FindOne env s
    [("user_id", .eq (.str u)), ("conversation_id", .eq (.str c))] name = r at hs ⊢
  obtain ⟨r1, r2⟩ := r
  simp only at hs
  subst hs
  cases r1 with
  | ok seq => rfl
  | error err =>
    dsimp only
    split <;> rfl

/-- The documents are the same after a point read. -/
theorem getSeq_state (env : Collaborator) (s : Collection) (c u name : String) :
    (getSeq env c u name s).2 = s.tick := by
  rw [getSeq_eq]

/-- C2, the counterexample: on a store whose record for the key has read
position 9, two calls `SetUserReadSeq(c,u,5)` leave the read position at 9, not
at `max(5,5) = 5`. -/
theorem SetUserReadSeq_twice_counterexample :
    (GetUserReadSeq neverFails "c" "u"
      (SetUserReadSeq neverFails "c" "u" 5
        (SetUserReadSeq neverFails "c" "u" 5 ⟨[⟨"u", "c", 0, 0, 9⟩], 0⟩).2).2).1 = (9, none)
    ∧ (9 : Int) ≠ max 5 5 := by
  decide

/-- C2, amended: with a collaborator that does not fail, after
`SetUserReadSeq(c,u,s1)` followed by `SetUserReadSeq(c,u,s2)` the getter
`GetUserReadSeq(c,u)` returns `max(p, s1, s2)`, where `p` is the value it
returned before the two calls (0 when the key has no record); it returns
`max(s1, s2)` whenever `p ≤ max(s1, s2)`, and calling `SetUserReadSeq(c,u,s)`
twice leaves it at `max(p, s)`, which is `s` whenever `p ≤ s`. -/
theorem SetUserReadSeq_twice (env : Collaborator) (s : Collection) (c u : String)
    (s1 s2 : Int) (hr : Reliable env) :
    (GetUserReadSeq env c u
        (SetUserReadSeq env c u s2 (SetUserReadSeq env c u s1 s).2).2).1
      = (max (GetUserReadSeq env c u s).1.1 (max s1 s2), none)
    ∧ ((GetUserReadSeq env c u s).1.1 ≤ max s1 s2 →
        (GetUserReadSeq env c u
          (SetUserReadSeq env c u s2 (SetUserReadSeq env c u s1 s).2).2).1
        = (max s1 s2, none))
    ∧ (¬ HasRecord s.docs c u → (GetUserReadSeq env c u s).1.1 = 0)
    ∧ (s1 = s2 →
        (GetUserReadSeq env c u
          (SetUserReadSeq env c u s2 (SetUserReadSeq env c u s1 s).2).2).1
        = (max (GetUserReadSeq env c u s).1.1 s1, none))
    ∧ (s1 = s2 → (GetUserReadSeq env c u s).1.1 ≤ s1 →
        (GetUserReadSeq env c u
          (SetUserReadSeq env c u s2 (SetUserReadSeq env c u s1 s).2).2).1
        = (s1, none)) := by
  have step : ∀ (t : Collection) (q : Int),
      (GetUserReadSeq env c u (SetUserReadSeq env c u q t).2)
        = ((max (GetUserReadSeq env c u t).1.1 q, none),
            (SetUserReadSeq env c u q t).2.tick) := by
    intro t q
    have hk : ∀ d : SeqUser, keyOf ({ d with ReadSeq := q } : SeqUser) = keyOf d :=
      fun _ => rfl
    rw [SetUserReadSeq_eval env t c u q (hr _) (hr _)]
    simp only [getSeq_read env _ c u (hr _)]
    by_cases hgt : counterOf SeqUser.ReadSeq t.docs c u > q
    · rw [if_pos hgt, max_eq_left (le_of_lt hgt)]
      rfl
    · rw [if_neg hgt, max_eq_right (not_lt.1 hgt)]
      simp only
      rw [counterOf_upsertKey_same SeqUser.ReadSeq c u _ ⟨u, c, 0, 0, q⟩ hk rfl]
      cases firstOfKey t.docs c u <;> rfl
  have main : (GetUserReadSeq env c u
        (SetUserReadSeq env c u s2 (SetUserReadSeq env c u s1 s).2).2).1
      = (max (GetUserReadSeq env c u s).1.1 (max s1 s2), none) := by
    rw [step (SetUserReadSeq env c u s1 s).2 s2, step s s1, max_assoc]
  refine ⟨main, ?_, ?_, ?_, ?_⟩
  · intro hle
    rw [main, max_eq_right hle]
  · intro hno
    rw [getSeq_read env s c u (hr _)]
    exact counterOf_no_record _ _ _ _ hno
  · intro heq
    rw [main, ← heq, max_self]
  · intro heq hle
    rw [main, ← heq, max_self, max_eq_right hle]

/-- C2 amended, on the scenario of the specification: from read position 0 the
calls with 15 and then 12 leave the read position at 15. -/
theorem SetUserReadSeq_twice_witness :
    Reliable neverFails
    ∧ (GetUserReadSeq neverFails "c" "u"
        (SetUserReadSeq neverFails "c" "u" 12
          (SetUserReadSeq neverFails "c" "u" 15 ⟨[], 0⟩).2).2).1 = (max 15 12, none) :=
  ⟨fun _ => rfl,
    (SetUserReadSeq_twice neverFails ⟨[], 0⟩ "c" "u" 15 12 (fun _ => rfl)).2.1 (by decide)⟩

/-- Every point getter is `getSeq` at the field it reads. -/
theorem pointGetters_getSeq (g : String × PointGetter) (hg : g ∈ pointGetters) :
    g.2 = fun env c u s => getSeq env c u g.1 s := by
  simp only [pointGetters, List.mem_cons, List.mem_singleton, List.not_mem_nil, or_false] at hg
  rcases hg with rfl | rfl | rfl <;> rfl

/-- The lookup of a key without a record reports `ErrNoDocuments` when the call
itself does not fail. -/
theorem FindOne_no_record (env : Collaborator) (s : Collection) (c u name : String)
    (hno : ¬ HasRecord s.docs c u) (h : env s.calls = none) :
    (FindOne env s (keyFilter c u) name).1 = .error .ErrNoDocuments := by
  unfold keyFilter
  rw [FindOne_key env s c u name h, (firstOfKey_eq_none_iff s.docs c u).2 hno]

/-- The error of `getSeq` is the error of its lookup, unless that error is
`ErrNoDocuments`. -/
theorem getSeq_error_iff (env : Collaborator) (s : Collection) (c u name : String)
    (e : MongoError) :
    (getSeq env c u name s).1.2 = some e
      ↔ ((FindOne env s (keyFilter c u) name).1 = .error e
          ∧ errorsIsNoDocuments e = false) := by
  rw [getSeq_eq]
  cases (FindOne env s (keyFilter c u) name).1 with
  | ok seq => simp
  | error err =>
    cases hd : errorsIsNoDocuments err with
    | true =>
      simp only [hd, if_true, Except.error.injEq]
      constructor
      · intro h
        cases h
      · rintro ⟨rfl, h⟩
        rw [hd] at h
        cases h
    | false =>
      simp only [hd, Bool.false_eq_true, if_false, Option.some.injEq, Except.error.injEq]
      constructor
      · rintro rfl
        exact ⟨rfl, hd⟩
      · rintro ⟨rfl, _⟩
        rfl

/-- C3: for a key without a record each of `GetUserMaxSeq`, `GetUserMinSeq` and
`GetUserReadSeq` returns 0 with no error when the lookup answers (its answer is
then the "no documents" result), and returns the value 0 whatever the
collaborator does; a lookup result that is "no documents" always yields 0 with
no error; a point getter returns an error exactly when its lookup fails with an
error that is not "no documents", the error returned is that same error, and the
value returned with it is 0. -/
theorem pointGetters_default_and_errors (env : Collaborator) (s : Collection) (c u : String) :
    (¬ HasRecord s.docs c u → env s.calls = none →
      (GetUserMaxSeq env c u s).1 = (0, none)
      ∧ (GetUserMinSeq env c u s).1 = (0, none)
      ∧ (GetUserReadSeq env c u s).1 = (0, none)
      ∧ ∀ g ∈ pointGetters,
          (FindOne env s (keyFilter c u) g.1).1 = .error .ErrNoDocuments)
    ∧ (¬ HasRecord s.docs c u →
        (GetUserMaxSeq env c u s).1.1 = 0
        ∧ (GetUserMinSeq env c u s).1.1 = 0
        ∧ (GetUserReadSeq env c u s).1.1 = 0)
    ∧ (∀ g ∈ pointGetters, ∀ e,
        (FindOne env s (keyFilter c u) g.1).1 = .error e → errorsIsNoDocuments e = true →
          (g.2 env c u s).1 = (0, none))
    ∧ (∀ g ∈ pointGetters, ∀ e,
        (g.2 env c u s).1.2 = some e
          ↔ ((FindOne env s (keyFilter c u) g.1).1 = .error e
              ∧ errorsIsNoDocuments e = false))
    ∧ (∀ g ∈ pointGetters, ∀ e,
        (g.2 env c u s).1.2 = some e → (g.2 env c u s).1.1 = 0) := by
  have hval : ∀ name, ¬ HasRecord s.docs c u → (getSeq env c u name s).1.1 = 0 := by
    intro name hno
    rw [getSeq_eq]
    cases henv : env s.calls with
    | none =>
      rw [FindOne_no_record env s c u name hno henv]
      rfl
    | some e =>
      have : (FindOne env s (keyFilter c u) name).1 = .error e := by
        unfold FindOne
        rw [henv]
      rw [this]
      dsimp only
      split <;> rfl
  refine ⟨?_, ?_, ?_, ?_, ?_⟩
  · intro hno henv
    refine ⟨?_, ?_, ?_, ?_⟩
    · rw [getSeq_max env s c u henv, counterOf_no_record _ _ _ _ hno]
    · rw [getSeq_min env s c u henv, counterOf_no_record _ _ _ _ hno]
    · rw [getSeq_read env s c u henv, counterOf_no_record _ _ _ _ hno]
    · intro g _
      exact FindOne_no_record env s c u g.1 hno henv
  · intro hno
    exact ⟨hval "max_seq" hno, hval "min_seq" hno, hval "read_seq" hno⟩
  · intro g hg e hfind hdoc
    rw [pointGetters_getSeq g hg]
    dsimp only
    rw [getSeq_eq, hfind]
    dsimp only
    rw [if_pos hdoc]
  · intro g hg e
    rw [pointGetters_getSeq g hg]
    exact getSeq_error_iff env s c u g.1 e
  · intro g hg e
    rw [pointGetters_getSeq g hg]
    dsimp only
    rw [getSeq_eq]
    cases (FindOne env s (keyFilter c u) g.1).1 with
    | ok seq =>
      intro h
      cases h
    | error err =>
      dsimp only
      split
      · intro h
        cases h
      · intro _
        rfl

/-- C3 on the empty store, at its first conjunct: the three getters return 0 with
no error. -/
theorem pointGetters_default_and_errors_witness :
    ¬ HasRecord [] "c" "u"
    ∧ (GetUserMaxSeq neverFails "c" "u" ⟨[], 0⟩).1 = (0, none)
    ∧ (GetUserMinSeq neverFails "c" "u" ⟨[], 0⟩).1 = (0, none)
    ∧ (GetUserReadSeq neverFails "c" "u" ⟨[], 0⟩).1 = (0, none) :=
  have hno : ¬ HasRecord [] "c" "u" := by simp [HasRecord]
  have h := (pointGetters_default_and_errors neverFails ⟨[], 0⟩ "c" "u").1 hno rfl
  ⟨hno, h.1, h.2.1, h.2.2.1⟩

/-- With at most one record per key, any record of a key is the first one. -/
theorem firstOfKey_of_mem (docs : List SeqUser) (h : UniqueKeys docs) (d : SeqUser)
    (hd : d ∈ docs) : firstOfKey docs d.ConversationID d.UserID = some d := by
  induction docs with
  | nil => cases hd
  | cons e rest ih =>
    obtain ⟨hno, hrest⟩ := (uniqueKeys_cons e rest).1 h
    unfold firstOfKey
    rw [List.find?_cons]
    rcases List.mem_cons.1 hd with rfl | hmem
    · simp [hasKey]
    · have hne : hasKey d.ConversationID d.UserID e = false := by
        cases hb : hasKey d.ConversationID d.UserID e with
        | false => rfl
        | true =>
          exfalso
          apply hno
          rw [hasKey_iff] at hb
          simp only [keyOf, Prod.mk.injEq] at hb
          exact ⟨d, hmem, hb.1.symm, hb.2.symm⟩
      rw [hne]
      exact ih hrest hmem

theorem counterOf_of_mem (sel : SeqUser → Int) (docs : List SeqUser) (h : UniqueKeys docs)
    (d : SeqUser) (hd : d ∈ docs) : counterOf sel docs d.ConversationID d.UserID = sel d := by
  unfold counterOf
  rw [firstOfKey_of_mem docs h d hd]

/-- C4: after a successful `SetUserMaxSeq(c,u,seq)` the getter `GetUserMaxSeq(c,u)`
returns `seq`, the getters `GetUserMinSeq(c,u)` and `GetUserReadSeq(c,u)` return
what they returned before (0 when the key had no record, the stored values of
its record when it had one), and the three getters of every other key return
what they returned before; the same holds for `SetUserMinSeq` with the roles of
the two counters exchanged. The reads are answered by a collaborator that does
not fail. -/
theorem SetUserMaxSeq_SetUserMinSeq_frame (env rd : Collaborator) (s : Collection)
    (c u : String) (seq : Int) (hu : UniqueKeys s.docs) (_hseq : 0 ≤ seq)
    (hr : Reliable rd) :
    ((SetUserMaxSeq env c u seq s).1 = none →
      (GetUserMaxSeq rd c u (SetUserMaxSeq env c u seq s).2).1 = (seq, none)
      ∧ (GetUserMinSeq rd c u (SetUserMaxSeq env c u seq s).2).1 = (GetUserMinSeq rd c u s).1
      ∧ (GetUserReadSeq rd c u (SetUserMaxSeq env c u seq s).2).1
          = (GetUserReadSeq rd c u s).1
      ∧ (¬ HasRecord s.docs c u →
          (GetUserMinSeq rd c u (SetUserMaxSeq env c u seq s).2).1 = (0, none)
          ∧ (GetUserReadSeq rd c u (SetUserMaxSeq env c u seq s).2).1 = (0, none))
      ∧ (∀ d ∈ s.docs, d.UserID = u → d.ConversationID = c →
          (GetUserMinSeq rd c u (SetUserMaxSeq env c u seq s).2).1 = (d.MinSeq, none)
          ∧ (GetUserReadSeq rd c u (SetUserMaxSeq env c u seq s).2).1 = (d.ReadSeq, none))
      ∧ (∀ c1 u1, ¬ (c1 = c ∧ u1 = u) →
          (GetUserMaxSeq rd c1 u1 (SetUserMaxSeq env c u seq s).2).1
            = (GetUserMaxSeq rd c1 u1 s).1
          ∧ (GetUserMinSeq rd c1 u1 (SetUserMaxSeq env c u seq s).2).1
            = (GetUserMinSeq rd c1 u1 s).1
          ∧ (GetUserReadSeq rd c1 u1 (SetUserMaxSeq env c u seq s).2).1
            = (GetUserReadSeq rd c1 u1 s).1))
    ∧ ((SetUserMinSeq env c u seq s).1 = none →
      (GetUserMinSeq rd c u (SetUserMinSeq env c u seq s).2).1 = (seq, none)
      ∧ (GetUserMaxSeq rd c u (SetUserMinSeq env c u seq s).2).1 = (GetUserMaxSeq rd c u s).1
      ∧ (GetUserReadSeq rd c u (SetUserMinSeq env c u seq s).2).1
          = (GetUserReadSeq rd c u s).1
      ∧ (¬ HasRecord s.docs c u →
          (GetUserMaxSeq rd c u (SetUserMinSeq env c u seq s).2).1 = (0, none)
          ∧ (GetUserReadSeq rd c u (SetUserMinSeq env c u seq s).2).1 = (0, none))
      ∧ (∀ d ∈ s.docs, d.UserID = u → d.ConversationID = c →
          (GetUserMaxSeq rd c u (SetUserMinSeq env c u seq s).2).1 = (d.MaxSeq, none)
          ∧ (GetUserReadSeq rd c u (SetUserMinSeq env c u seq s).2).1 = (d.ReadSeq, none))
      ∧ (∀ c1 u1, ¬ (c1 = c ∧ u1 = u) →
          (GetUserMaxSeq rd c1 u1 (SetUserMinSeq env c u seq s).2).1
            = (GetUserMaxSeq rd c1 u1 s).1
          ∧ (GetUserMinSeq rd c1 u1 (SetUserMinSeq env c u seq s).2).1
            = (GetUserMinSeq rd c1 u1 s).1
          ∧ (GetUserReadSeq rd c1 u1 (SetUserMinSeq env c u seq s).2).1
            = (GetUserReadSeq rd c1 u1 s).1)) := by
  have hne : ∀ c1 u1 : String, ¬ (c1 = c ∧ u1 = u) → (u1, c1) ≠ (u, c) := by
    intro c1 u1 h heq
    simp only [Prod.mk.injEq] at heq
    exact h ⟨heq.2, heq.1⟩
  have hsame : ∀ (sel : SeqUser → Int) (f : SeqUser → SeqUser) (fresh : SeqUser),
      (∀ d, keyOf (f d) = keyOf d) → keyOf fresh = (u, c) →
      (∀ d, sel (f d) = sel d) → sel fresh = 0 →
      counterOf sel (upsertKey c u f fresh s.docs) c u = counterOf sel s.docs c u := by
    intro sel f fresh hf hfresh hsel hzero
    rw [counterOf_upsertKey_same sel c u f fresh hf hfresh]
    unfold counterOf
    cases firstOfKey s.docs c u with
    | none => exact hzero
    | some d => exact hsel d
  have hstored : ∀ (sel : SeqUser → Int) (d : SeqUser), d ∈ s.docs → d.UserID = u →
      d.ConversationID = c → counterOf sel s.docs c u = sel d := by
    intro sel d hd h1 h2
    rw [← h1, ← h2]
    exact counterOf_of_mem sel s.docs hu d hd
  constructor
  · intro hok
    have henv : env s.calls = none := setSeq_success env s c u "max_seq" seq hok
    have hk : ∀ d : SeqUser, keyOf ({ d with MaxSeq := seq } : SeqUser) = keyOf d :=
      fun _ => rfl
    rw [setSeq_max env s c u seq henv]
    simp only [getSeq_read rd _ _ _ (hr _), getSeq_min rd _ _ _ (hr _),
      getSeq_max rd _ _ _ (hr _)]
    have hmin := hsame SeqUser.MinSeq _ ⟨u, c, 0, seq, 0⟩ hk rfl (fun _ => rfl) rfl
    have hread := hsame SeqUser.ReadSeq _ ⟨u, c, 0, seq, 0⟩ hk rfl (fun _ => rfl) rfl
    refine ⟨?_, ?_, ?_, ?_, ?_, ?_⟩
    · rw [counterOf_upsertKey_same SeqUser.MaxSeq c u _ ⟨u, c, 0, seq, 0⟩ hk rfl]
      cases firstOfKey s.docs c u <;> rfl
    · rw [hmin]
    · rw [hread]
    · intro hno
      rw [hmin, hread, counterOf_no_record _ _ _ _ hno, counterOf_no_record _ _ _ _ hno]
      exact ⟨rfl, rfl⟩
    · intro d hd h1 h2
      rw [hmin, hread, hstored _ d hd h1 h2, hstored _ d hd h1 h2]
      exact ⟨rfl, rfl⟩
    · intro c1 u1 h
      rw [counterOf_upsertKey_other _ c u c1 u1 _ ⟨u, c, 0, seq, 0⟩ hk rfl (hne c1 u1 h),
        counterOf_upsertKey_other _ c u c1 u1 _ ⟨u, c, 0, seq, 0⟩ hk rfl (hne c1 u1 h),
        counterOf_upsertKey_other _ c u c1 u1 _ ⟨u, c, 0, seq, 0⟩ hk rfl (hne c1 u1 h)]
      exact ⟨rfl, rfl, rfl⟩
  · intro hok
    have henv : env s.calls = none := setSeq_success env s c u "min_seq" seq hok
    have hk : ∀ d : SeqUser, keyOf ({ d with MinSeq := seq } : SeqUser) = keyOf d :=
      fun _ => rfl
    rw [setSeq_min env s c u seq henv]
    simp only [getSeq_read rd _ _ _ (hr _), getSeq_min rd _ _ _ (hr _),
      getSeq_max rd _ _ _ (hr _)]
    have hmax := hsame SeqUser.MaxSeq _ ⟨u, c, seq, 0, 0⟩ hk rfl (fun _ => rfl) rfl
    have hread := hsame SeqUser.ReadSeq _ ⟨u, c, seq, 0, 0⟩ hk rfl (fun _ => rfl) rfl
    refine ⟨?_, ?_, ?_, ?_, ?_, ?_⟩
    · rw [counterOf_upsertKey_same SeqUser.MinSeq c u _ ⟨u, c, seq, 0, 0⟩ hk rfl]
      cases firstOfKey s.docs c u <;> rfl
    · rw [hmax]
    · rw [hread]
    · intro hno
      rw [hmax, hread, counterOf_no_record _ _ _ _ hno, counterOf_no_record _ _ _ _ hno]
      exact ⟨rfl, rfl⟩
    · intro d hd h1 h2
      rw [hmax, hread, hstored _ d hd h1 h2, hstored _ d hd h1 h2]
      exact ⟨rfl, rfl⟩
    · intro c1 u1 h
      rw [counterOf_upsertKey_other _ c u c1 u1 _ ⟨u, c, seq, 0, 0⟩ hk rfl (hne c1 u1 h),
        counterOf_upsertKey_other _ c u c1 u1 _ ⟨u, c, seq, 0, 0⟩ hk rfl (hne c1 u1 h),
        counterOf_upsertKey_other _ c u c1 u1 _ ⟨u, c, seq, 0, 0⟩ hk rfl (hne c1 u1 h)]
      exact ⟨rfl, rfl, rfl⟩

/-- C4 on a store with one record: `SetUserMaxSeq` to 20 is read back and leaves
`min_seq` and `read_seq` of the key as they were. -/
theorem SetUserMaxSeq_SetUserMinSeq_frame_witness :
    UniqueKeys [(⟨"u", "c", 10, 0, 15⟩ : SeqUser)] ∧ (0 : Int) ≤ 20 ∧ Reliable neverFails
    ∧ (SetUserMaxSeq neverFails "c" "u" 20 ⟨[⟨"u", "c", 10, 0, 15⟩], 0⟩).1 = none
    ∧ (GetUserMaxSeq neverFails "c" "u"
        (SetUserMaxSeq neverFails "c" "u" 20 ⟨[⟨"u", "c", 10, 0, 15⟩], 0⟩).2).1 = (20, none)
    ∧ (GetUserMinSeq neverFails "c" "u"
        (SetUserMaxSeq neverFails "c" "u" 20 ⟨[⟨"u", "c", 10, 0, 15⟩], 0⟩).2).1
        = (GetUserMinSeq neverFails "c" "u" ⟨[⟨"u", "c", 10, 0, 15⟩], 0⟩).1 :=
  have h := (SetUserMaxSeq_SetUserMinSeq_frame neverFails neverFails
    ⟨[⟨"u", "c", 10, 0, 15⟩], 0⟩ "c" "u" 20 (uniqueKeys_single _) (by decide)
    (fun _ => rfl)).1 (by decide)
  ⟨uniqueKeys_single _, by decide, fun _ => rfl, by decide, h.1, h.2.1⟩

/-- The value of a point read of a key without a record is 0, whatever the
collaborator does. -/
theorem getSeq_no_record_value (env : Collaborator) (s : Collection) (c u name : String)
    (hno : ¬ HasRecord s.docs c u) : (getSeq env c u name s).1.1 = 0 := by
  rw [getSeq_eq]
  cases henv : env s.calls with
  | none =>
    rw [FindOne_no_record env s c u name hno henv]
    rfl
  | some e =>
    have : (FindOne env s (keyFilter c u) name).1 = .error e := by
      unfold FindOne
      rw [henv]
    rw [this]
    dsimp only
    split <;> rfl

/-- The two steps of `SetUserReadSeq`, with the state between them made explicit. -/
theorem SetUserReadSeq_eq (env : Collaborator) (s : Collection) (c u : String) (seq : Int) :
    SetUserReadSeq env c u seq s
      = (match (GetUserReadSeq env c u s).1 with
          | (_, some err) => (some err, s.tick)
          | (dbSeq, none) =>
            if dbSeq > seq then (none, s.tick) else setSeq env c u seq "read_seq" s.tick) := by
  unfold SetUserReadSeq
  have hs : (GetUserReadSeq env c u s).2 = s.tick := getSeq_state env s c u "read_seq"
  generalize GetUserReadSeq env c u s = r at hs ⊢
  obtain ⟨⟨v, e⟩, s1⟩ := r
  simp only at hs
  subst hs
  cases e <;> rfl

/-- The documents after `setSeq` on the read position: untouched by a failed
call, upserted by a successful one. -/
theorem setSeq_read_cases (env : Collaborator) (s : Collection) (c u : String) (seq : Int) :
    ((setSeq env c u seq "read_seq" s).1 ≠ none
        ∧ (setSeq env c u seq "read_seq" s).2.docs = s.docs)
    ∨ ((setSeq env c u seq "read_seq" s).1 = none
        ∧ (setSeq env c u seq "read_seq" s).2.docs
            = upsertKey c u (fun d => { d with ReadSeq := seq }) ⟨u, c, 0, 0, seq⟩ s.docs) := by
  cases henv : env s.calls with
  | some e =>
    left
    rw [setSeq_fail env s c u "read_seq" seq e henv]
    exact ⟨by simp, rfl⟩
  | none =>
    right
    rw [setSeq_read env s c u seq henv]
    exact ⟨rfl, rfl⟩

/-- The documents after `SetUserReadSeq`: either the ones before, or the ones
before with the key upserted to the new read position. -/
theorem SetUserReadSeq_docs (env : Collaborator) (s : Collection) (c u : String) (seq : Int) :
    (SetUserReadSeq env c u seq s).2.docs = s.docs
    ∨ (SetUserReadSeq env c u seq s).2.docs
        = upsertKey c u (fun d => { d with ReadSeq := seq }) ⟨u, c, 0, 0, seq⟩ s.docs := by
  rw [SetUserReadSeq_eq]
  obtain ⟨v, e⟩ := (GetUserReadSeq env c u s).1
  cases e with
  | some err => exact Or.inl rfl
  | none =>
    dsimp only
    split
    · exact Or.inl rfl
    · rcases setSeq_read_cases env s.tick c u seq with h | h
      · exact Or.inl h.2
      · exact Or.inr h.2

/-- C8, the counterexample: on the empty store `SetUserReadSeq(c,u,-1)` reports
success and the store is still empty, so the key has no record. -/
theorem SetUserReadSeq_negative_counterexample :
    (SetUserReadSeq neverFails "c" "u" (-1) ⟨[], 0⟩).1 = none
    ∧ (SetUserReadSeq neverFails "c" "u" (-1) ⟨[], 0⟩).2.docs = [] := by
  decide

/-- C8, amended: for a key without a record, a successful `SetUserMaxSeq` or
`SetUserMinSeq` with any `seq`, and a successful `SetUserReadSeq` with
`seq ≥ 0`, leave a record for the key in the store; `SetUserReadSeq` with
`seq < 0` on such a key writes nothing. -/
theorem setters_materialize (env : Collaborator) (s : Collection) (c u : String) (seq : Int)
    (hno : ¬ HasRecord s.docs c u) :
    ((SetUserMaxSeq env c u seq s).1 = none →
      HasRecord (SetUserMaxSeq env c u seq s).2.docs c u)
    ∧ ((SetUserMinSeq env c u seq s).1 = none →
      HasRecord (SetUserMinSeq env c u seq s).2.docs c u)
    ∧ (0 ≤ seq → (SetUserReadSeq env c u seq s).1 = none →
      HasRecord (SetUserReadSeq env c u seq s).2.docs c u)
    ∧ (seq < 0 → (SetUserReadSeq env c u seq s).2.docs = s.docs) := by
  refine ⟨?_, ?_, ?_, ?_⟩
  · intro hok
    rw [setSeq_max env s c u seq (setSeq_success env s c u "max_seq" seq hok)]
    exact (upsertKey_hasRecord c u (fun d => { d with MaxSeq := seq }) ⟨u, c, 0, seq, 0⟩
      (fun _ => rfl) rfl s.docs c u).2
      (Or.inr ⟨rfl, rfl⟩)
  · intro hok
    rw [setSeq_min env s c u seq (setSeq_success env s c u "min_seq" seq hok)]
    exact (upsertKey_hasRecord c u (fun d => { d with MinSeq := seq }) ⟨u, c, seq, 0, 0⟩
      (fun _ => rfl) rfl s.docs c u).2
      (Or.inr ⟨rfl, rfl⟩)
  · intro hseq
    have hv : (GetUserReadSeq env c u s).1.1 = 0 :=
      getSeq_no_record_value env s c u "read_seq" hno
    rw [SetUserReadSeq_eq]
    generalize (GetUserReadSeq env c u s).1 = r at hv ⊢
    obtain ⟨v, e⟩ := r
    simp only at hv
    subst hv
    cases e with
    | some err =>
      intro h
      cases h
    | none =>
      dsimp only
      rw [if_neg (not_lt.2 hseq)]
      intro hok
      rw [setSeq_read env s.tick c u seq (setSeq_success env s.tick c u "read_seq" seq hok)]
      exact (upsertKey_hasRecord c u (fun d => { d with ReadSeq := seq }) ⟨u, c, 0, 0, seq⟩
      (fun _ => rfl) rfl s.docs c u).2
        (Or.inr ⟨rfl, rfl⟩)
  · intro hseq
    have hv : (GetUserReadSeq env c u s).1.1 = 0 :=
      getSeq_no_record_value env s c u "read_seq" hno
    rw [SetUserReadSeq_eq]
    generalize (GetUserReadSeq env c u s).1 = r at hv ⊢
    obtain ⟨v, e⟩ := r
    simp only at hv
    subst hv
    cases e with
    | some err => rfl
    | none =>
      dsimp only
      rw [if_pos hseq]
      rfl

/-- C8 amended, on the empty store: `SetUserReadSeq(c,u,15)` leaves a record. -/
theorem setters_materialize_witness :
    ¬ HasRecord [] "c" "u"
    ∧ HasRecord (SetUserReadSeq neverFails "c" "u" 15 ⟨[], 0⟩).2.docs "c" "u" :=
  have hno : ¬ HasRecord [] "c" "u" := by simp [HasRecord]
  ⟨hno, (setters_materialize neverFails ⟨[], 0⟩ "c" "u" 15 hno).2.2.1 (by decide) (by decide)⟩

/-- A key with a record has a positive number of records. -/
theorem filter_hasKey_pos (docs : List SeqUser) (c u : String) (h : HasRecord docs c u) :
    0 < (docs.filter (hasKey c u)).length := by
  obtain ⟨d, hd, hu, hc⟩ := h
  rw [← List.countP_eq_length_filter]
  exact List.countP_pos_iff.2 ⟨d, hd, by simp [hasKey, hu, hc]⟩

/-- An upsert on a key that has a record inserts nothing. -/
theorem upsertKey_length (c u : String) (f : SeqUser → SeqUser) (fresh : SeqUser)
    (hf : ∀ d, keyOf (f d) = keyOf d) (docs : List SeqUser) (h : HasRecord docs c u) :
    (upsertKey c u f fresh docs).length = docs.length := by
  unfold upsertKey
  rw [if_pos ((any_hasKey_iff docs c u).2 h)]
  have := congrArg List.length (updateFirst_keys (hasKey c u) f hf docs)
  simpa using this

/-- C9: "every key has at most one record" holds of the empty store and is
preserved by every successful `SetUserMaxSeq`, `SetUserMinSeq` and
`SetUserReadSeq`; none of them removes the record of any key, and none of them
inserts a record when the key already has one; after a successful
`SetUserMaxSeq` or `SetUserMinSeq` the key has exactly one record. -/
theorem uniqueKeys_invariant :
    UniqueKeys []
    ∧ (∀ (env : Collaborator) (s : Collection) (c u : String) (seq : Int),
        UniqueKeys s.docs →
        ((SetUserMaxSeq env c u seq s).1 = none →
          UniqueKeys (SetUserMaxSeq env c u seq s).2.docs
          ∧ ((SetUserMaxSeq env c u seq s).2.docs.filter (hasKey c u)).length = 1)
        ∧ ((SetUserMinSeq env c u seq s).1 = none →
          UniqueKeys (SetUserMinSeq env c u seq s).2.docs
          ∧ ((SetUserMinSeq env c u seq s).2.docs.filter (hasKey c u)).length = 1)
        ∧ ((SetUserReadSeq env c u seq s).1 = none →
          UniqueKeys (SetUserReadSeq env c u seq s).2.docs))
    ∧ (∀ (env : Collaborator) (s : Collection) (c u : String) (seq : Int) (c1 u1 : String),
        HasRecord s.docs c1 u1 →
        ((SetUserMaxSeq env c u seq s).1 = none →
          HasRecord (SetUserMaxSeq env c u seq s).2.docs c1 u1)
        ∧ ((SetUserMinSeq env c u seq s).1 = none →
          HasRecord (SetUserMinSeq env c u seq s).2.docs c1 u1)
        ∧ ((SetUserReadSeq env c u seq s).1 = none →
          HasRecord (SetUserReadSeq env c u seq s).2.docs c1 u1))
    ∧ (∀ (env : Collaborator) (s : Collection) (c u : String) (seq : Int),
        HasRecord s.docs c u →
        ((SetUserMaxSeq env c u seq s).1 = none →
          (SetUserMaxSeq env c u seq s).2.docs.length = s.docs.length)
        ∧ ((SetUserMinSeq env c u seq s).1 = none →
          (SetUserMinSeq env c u seq s).2.docs.length = s.docs.length)
        ∧ ((SetUserReadSeq env c u seq s).1 = none →
          (SetUserReadSeq env c u seq s).2.docs.length = s.docs.length)) := by
  have one : ∀ (docs : List SeqUser) (c u : String), UniqueKeys docs → HasRecord docs c u →
      (docs.filter (hasKey c u)).length = 1 := by
    intro docs c u h1 h2
    have := h1 c u
    have := filter_hasKey_pos docs c u h2
    omega
  have hmax : ∀ (c u : String) (seq : Int) (d : SeqUser),
      keyOf ({ d with MaxSeq := seq } : SeqUser) = keyOf d := fun _ _ _ _ => rfl
  have hmin : ∀ (c u : String) (seq : Int) (d : SeqUser),
      keyOf ({ d with MinSeq := seq } : SeqUser) = keyOf d := fun _ _ _ _ => rfl
  have hread : ∀ (c u : String) (seq : Int) (d : SeqUser),
      keyOf ({ d with ReadSeq := seq } : SeqUser) = keyOf d := fun _ _ _ _ => rfl
  refine ⟨?_, ?_, ?_, ?_⟩
  · intro c u
    simp
  · intro env s c u seq hu
    refine ⟨?_, ?_, ?_⟩
    · intro hok
      rw [setSeq_max env s c u seq (setSeq_success env s c u "max_seq" seq hok)]
      have h1 := upsertKey_unique c u (fun d => { d with MaxSeq := seq }) ⟨u, c, 0, seq, 0⟩
        (hmax c u seq) rfl s.docs hu
      exact ⟨h1, one _ c u h1
        ((upsertKey_hasRecord c u (fun d => { d with MaxSeq := seq }) ⟨u, c, 0, seq, 0⟩
          (hmax c u seq) rfl s.docs c u).2 (Or.inr ⟨rfl, rfl⟩))⟩
    · intro hok
      rw [setSeq_min env s c u seq (setSeq_success env s c u "min_seq" seq hok)]
      have h1 := upsertKey_unique c u (fun d => { d with MinSeq := seq }) ⟨u, c, seq, 0, 0⟩
        (hmin c u seq) rfl s.docs hu
      exact ⟨h1, one _ c u h1
        ((upsertKey_hasRecord c u (fun d => { d with MinSeq := seq }) ⟨u, c, seq, 0, 0⟩
          (hmin c u seq) rfl s.docs c u).2 (Or.inr ⟨rfl, rfl⟩))⟩
    · intro _
      rcases SetUserReadSeq_docs env s c u seq with h | h
      · rw [h]
        exact hu
      · rw [h]
        exact upsertKey_unique c u (fun d => { d with ReadSeq := seq }) ⟨u, c, 0, 0, seq⟩
          (hread c u seq) rfl s.docs hu
  · intro env s c u seq c1 u1 hrec
    refine ⟨?_, ?_, ?_⟩
    · intro hok
      rw [setSeq_max env s c u seq (setSeq_success env s c u "max_seq" seq hok)]
      exact (upsertKey_hasRecord c u (fun d => { d with MaxSeq := seq }) ⟨u, c, 0, seq, 0⟩
        (hmax c u seq) rfl s.docs c1 u1).2 (Or.inl hrec)
    · intro hok
      rw [setSeq_min env s c u seq (setSeq_success env s c u "min_seq" seq hok)]
      exact (upsertKey_hasRecord c u (fun d => { d with MinSeq := seq }) ⟨u, c, seq, 0, 0⟩
        (hmin c u seq) rfl s.docs c1 u1).2 (Or.inl hrec)
    · intro _
      rcases SetUserReadSeq_docs env s c u seq with h | h
      · rw [h]
        exact hrec
      · rw [h]
        exact (upsertKey_hasRecord c u (fun d => { d with ReadSeq := seq }) ⟨u, c, 0, 0, seq⟩
          (hread c u seq) rfl s.docs c1 u1).2 (Or.inl hrec)
  · intro env s c u seq hrec
    refine ⟨?_, ?_, ?_⟩
    · intro hok
      rw [setSeq_max env s c u seq (setSeq_success env s c u "max_seq" seq hok)]
      exact upsertKey_length c u _ _ (hmax c u seq) s.docs hrec
    · intro hok
      rw [setSeq_min env s c u seq (setSeq_success env s c u "min_seq" seq hok)]
      exact upsertKey_length c u _ _ (hmin c u seq) s.docs hrec
    · intro _
      rcases SetUserReadSeq_docs env s c u seq with h | h
      · rw [h]
      · rw [h]
        exact upsertKey_length c u _ _ (hread c u seq) s.docs hrec

/-- C9 on a store with one record: a second `SetUserMaxSeq` for the same key
leaves exactly one record for it. -/
theorem uniqueKeys_invariant_witness :
    UniqueKeys [(⟨"u", "c", 10, 0, 15⟩ : SeqUser)]
    ∧ UniqueKeys (SetUserMaxSeq neverFails "c" "u" 20 ⟨[⟨"u", "c", 10, 0, 15⟩], 0⟩).2.docs
    ∧ ((SetUserMaxSeq neverFails "c" "u" 20 ⟨[⟨"u", "c", 10, 0, 15⟩], 0⟩).2.docs.filter
        (hasKey "c" "u")).length = 1 :=
  ⟨uniqueKeys_single _,
    (uniqueKeys_invariant.2.1 neverFails ⟨[⟨"u", "c", 10, 0, 15⟩], 0⟩ "c" "u" 20
      (uniqueKeys_single _)).1 (by decide)⟩

/-! ## Go maps, evaluated -/

theorem GoMap.get_set {κ α : Type} [DecidableEq κ] (m : GoMap κ α) (k k1 : κ) (v : α) :
    (m.set k v).get k1 = if k = k1 then some v else m.get k1 := by
  induction m with
  | nil => simp [GoMap.set, GoMap.get]
  | cons e rest ih =>
    obtain ⟨k0, v0⟩ := e
    unfold GoMap.set
    by_cases h0 : k0 = k
    · subst h0
      simp only [if_true, GoMap.get]
      by_cases h1 : k0 = k1 <;> simp [h1]
    · simp only [h0, if_false, GoMap.get, ih]
      by_cases h1 : k0 = k1
      · have : ¬ k = k1 := fun h => h0 (h1.trans h.symm)
        simp [h1, this]
      · simp [h1]

theorem GoMap.get_isSome_iff {κ α : Type} [DecidableEq κ] (m : GoMap κ α) (k : κ) :
    (m.get k).isSome ↔ k ∈ m.keys := by
  induction m with
  | nil => simp [GoMap.get, GoMap.keys]
  | cons e rest ih =>
    obtain ⟨k0, v0⟩ := e
    unfold GoMap.get
    by_cases h : k0 = k
    · simp [h, GoMap.keys]
    · have h1 : ¬ k = k0 := fun x => h x.symm
      simp only [h, if_false, ih, GoMap.keys, List.map_cons, List.mem_cons, h1, false_or]

theorem GoMap.keys_set {κ α : Type} [DecidableEq κ] (m : GoMap κ α) (k : κ) (v : α) :
    (m.set k v).keys = if k ∈ m.keys then m.keys else m.keys ++ [k] := by
  induction m with
  | nil => simp [GoMap.set, GoMap.keys]
  | cons e rest ih =>
    obtain ⟨k0, v0⟩ := e
    unfold GoMap.set
    by_cases h0 : k0 = k
    · simp [h0, GoMap.keys]
    · have h1 : ¬ k = k0 := fun x => h0 x.symm
      simp only [GoMap.keys] at ih
      simp only [h0, if_false, GoMap.keys, List.map_cons, List.mem_cons, h1, false_or, ih]
      split <;> simp

theorem GoMap.keys_set_nodup {κ α : Type} [DecidableEq κ] (m : GoMap κ α) (k : κ) (v : α)
    (h : m.keys.Nodup) : (m.set k v).keys.Nodup := by
  rw [GoMap.keys_set]
  split
  · exact h
  · rename_i hk
    exact List.Nodup.append h (List.nodup_singleton _) (by simpa using hk)

theorem GoMap.set_ne_nil {κ α : Type} [DecidableEq κ] (m : GoMap κ α) (k : κ) (v : α) :
    m.set k v ≠ [] := by
  cases m with
  | nil => simp [GoMap.set]
  | cons e rest =>
    obtain ⟨k0, v0⟩ := e
    unfold GoMap.set
    split <;> simp

/-! ## The batch reads, evaluated -/

/-- What `Find` yields when the call does not fail. -/
theorem Find_ok (env : Collaborator) (s : Collection) (filter : Filter) (names : List String)
    (h : env s.calls = none) :
    Find env s filter names
      = (.ok ((s.docs.filter (matchesFilter filter)).map (SeqUser.project names)), s.tick) := by
  unfold Find
  rw [h]

theorem Find_fail (env : Collaborator) (s : Collection) (filter : Filter) (names : List String)
    (e : MongoError) (h : env s.calls = some e) :
    Find env s filter names = (.error e, s.tick) := by
  unfold Find
  rw [h]

theorem matchesFilter_userIn (u : String) (cs : List String) :
    matchesFilter
        [("user_id", .eq (.str u)), ("conversation_id", .isIn (cs.map BsonValue.str))]
      = fun d => decide (d.UserID = u ∧ d.ConversationID ∈ cs) := by
  funext d
  simp [matchesFilter, Cond.holds, SeqUser.field]

theorem matchesFilter_convIn (cs : List String) :
    matchesFilter [("conversation_id", .isIn (cs.map BsonValue.str))]
      = fun d => decide (d.ConversationID ∈ cs) := by
  funext d
  simp [matchesFilter, Cond.holds, SeqUser.field]

theorem project_conv_read (d : SeqUser) :
    SeqUser.project ["conversation_id", "read_seq"] d
      = { UserID := "", ConversationID := d.ConversationID, MinSeq := 0, MaxSeq := 0,
          ReadSeq := d.ReadSeq } := by
  simp [SeqUser.project, SeqUser.field, SeqUser.setField, SeqUser.zero]

theorem project_conv_user_read (d : SeqUser) :
    SeqUser.project ["conversation_id", "user_id", "read_seq"] d
      = { UserID := d.UserID, ConversationID := d.ConversationID, MinSeq := 0, MaxSeq := 0,
          ReadSeq := d.ReadSeq } := by
  simp [SeqUser.project, SeqUser.field, SeqUser.setField, SeqUser.zero]

/-- The result loop of `GetUserReadSeqs`: an entry of the result comes from the
accumulator or from one of the records. -/
theorem readLoop_get_some (seqs : List SeqUser) (acc : GoMap String Int) (c : String)
    (v : Int)
    (h : (seqs.foldl (fun acc seq => acc.set seq.ConversationID seq.ReadSeq) acc).get c
          = some v) :
    acc.get c = some v ∨ ∃ e ∈ seqs, e.ConversationID = c ∧ e.ReadSeq = v := by
  induction seqs generalizing acc with
  | nil => exact Or.inl h
  | cons d rest ih =>
    rw [List.foldl_cons] at h
    rcases ih _ h with h1 | ⟨e, he, h2⟩
    · rw [GoMap.get_set] at h1
      by_cases hd : d.ConversationID = c
      · rw [if_pos hd] at h1
        exact Or.inr ⟨d, List.mem_cons_self _ _, hd, Option.some.inj h1⟩
      · rw [if_neg hd] at h1
        exact Or.inl h1
    · exact Or.inr ⟨e, List.mem_cons_of_mem _ he, h2⟩

/-- The result loop of `GetUserReadSeqs`: the keys of the result are the keys of
the accumulator and the conversations of the records. -/
theorem readLoop_get_isSome (seqs : List SeqUser) (acc : GoMap String Int) (c : String) :
    ((seqs.foldl (fun acc seq => acc.set seq.ConversationID seq.ReadSeq) acc).get c).isSome
      ↔ (acc.get c).isSome ∨ ∃ e ∈ seqs, e.ConversationID = c := by
  induction seqs generalizing acc with
  | nil => simp
  | cons d rest ih =>
    rw [List.foldl_cons, ih, GoMap.get_set]
    by_cases hd : d.ConversationID = c
    · simp [hd]
    · simp only [hd, if_false, List.mem_cons, exists_eq_or_imp, false_or]

theorem readLoop_keys_nodup (seqs : List SeqUser) (acc : GoMap String Int)
    (h : acc.keys.Nodup) :
    (seqs.foldl (fun acc seq => acc.set seq.ConversationID seq.ReadSeq) acc).keys.Nodup := by
  induction seqs generalizing acc with
  | nil => exact h
  | cons d rest ih =>
    rw [List.foldl_cons]
    exact ih _ (GoMap.keys_set_nodup _ _ _ h)

/-- The entries of the result of `notFoundSet0`. -/
theorem notFoundSet0_get (seq : GoMap String Int) (conversationIDs : List String) (c : String) :
    (notFoundSet0 seq conversationIDs).get c
      = match seq.get c with
        | some v => some v
        | none => if c ∈ conversationIDs then some 0 else none := by
  unfold notFoundSet0
  induction conversationIDs generalizing seq with
  | nil =>
    rw [List.foldl_nil]
    cases hc : seq.get c <;> simp
  | cons k rest ih =>
    rw [List.foldl_cons, ih]
    cases hk : seq.get k with
    | some w =>
      dsimp only
      cases hc : seq.get c with
      | some v => rfl
      | none =>
        dsimp only
        have hne : ¬ c = k := by
          intro h
          rw [h, hk] at hc
          cases hc
        simp [hne]
    | none =>
      dsimp only
      rw [GoMap.get_set]
      by_cases hkc : k = c
      · subst hkc
        simp [hk]
      · have hne : ¬ c = k := fun h => hkc h.symm
        simp only [hkc, if_false, List.mem_cons, hne, false_or]

theorem notFoundSet0_keys_nodup (seq : GoMap String Int) (conversationIDs : List String)
    (h : seq.keys.Nodup) : (notFoundSet0 seq conversationIDs).keys.Nodup := by
  unfold notFoundSet0
  induction conversationIDs generalizing seq with
  | nil => exact h
  | cons k rest ih =>
    rw [List.foldl_cons]
    apply ih
    split
    · exact h
    · exact GoMap.keys_set_nodup _ _ _ h

/-- The records that the query of `GetUserReadSeqs` returns. -/
theorem mem_userSeqs (docs : List SeqUser) (u : String) (cs : List String) (e : SeqUser) :
    e ∈ (docs.filter (fun d => decide (d.UserID = u ∧ d.ConversationID ∈ cs))).map
          (SeqUser.project ["conversation_id", "read_seq"])
      ↔ ∃ d ∈ docs, d.UserID = u ∧ d.ConversationID ∈ cs
          ∧ e = ⟨"", d.ConversationID, 0, 0, d.ReadSeq⟩ := by
  simp only [List.mem_map, List.mem_filter, decide_eq_true_eq, project_conv_read]
  constructor
  · rintro ⟨d, ⟨hd, hu, hc⟩, rfl⟩
    exact ⟨d, hd, hu, hc, rfl⟩
  · rintro ⟨d, hd, hu, hc, rfl⟩
    exact ⟨d, ⟨hd, hu, hc⟩, rfl⟩

/-- An entry built by the result loop of `GetUserReadSeqs` is the read position
of a record of the user in a requested conversation. -/
theorem queriedReadSeqs_get_some (docs : List SeqUser) (u : String) (cs : List String)
    (c : String) (v : Int) (h : (queriedReadSeqs docs u cs).get c = some v) :
    c ∈ cs ∧ ∃ d ∈ docs, d.UserID = u ∧ d.ConversationID = c ∧ d.ReadSeq = v := by
  rcases readLoop_get_some _ [] c v h with h2 | ⟨e, he, hec, hev⟩
  · simp [GoMap.get] at h2
  · obtain ⟨d, hd, hdu, hdc, rfl⟩ := (mem_userSeqs docs u cs e).1 he
    simp only at hec hev
    exact ⟨hec ▸ hdc, d, hd, hdu, hec, hev⟩

/-- A requested conversation without an entry after the result loop of
`GetUserReadSeqs` has no record for the user. -/
theorem queriedReadSeqs_get_none (docs : List SeqUser) (u : String) (cs : List String)
    (c : String) (hc : c ∈ cs) (h : (queriedReadSeqs docs u cs).get c = none) :
    ¬ HasRecord docs c u := by
  rintro ⟨d, hd, hdu, hdc⟩
  have h2 := (readLoop_get_isSome
    ((docs.filter (fun d => decide (d.UserID = u ∧ d.ConversationID ∈ cs))).map
      (SeqUser.project ["conversation_id", "read_seq"])) [] c).2
    (Or.inr ⟨⟨"", d.ConversationID, 0, 0, d.ReadSeq⟩,
      (mem_userSeqs docs u cs _).2 ⟨d, hd, hdu, hdc ▸ hc, rfl⟩, hdc⟩)
  unfold queriedReadSeqs at h
  rw [h] at h2
  cases h2

/-- What `GetUserReadSeqs` returns for a non-empty request when its query does
not fail. -/
theorem GetUserReadSeqs_ok (env : Collaborator) (s : Collection) (u : String)
    (cs : List String) (hne : cs ≠ []) (h : env s.calls = none) :
    GetUserReadSeqs env u cs s
      = ((notFoundSet0 (queriedReadSeqs s.docs u cs) cs, none), s.tick) := by
  unfold GetUserReadSeqs queriedReadSeqs
  have hlen : ¬ cs.length = 0 := fun h0 => hne (List.length_eq_zero.1 h0)
  rw [if_neg hlen]
  dsimp only
  rw [Find_ok env s _ _ h, matchesFilter_userIn]

theorem GetUserReadSeqs_fail (env : Collaborator) (s : Collection) (u : String)
    (cs : List String) (hne : cs ≠ []) (e : MongoError) (h : env s.calls = some e) :
    GetUserReadSeqs env u cs s = (([], some e), s.tick) := by
  unfold GetUserReadSeqs
  have hlen : ¬ cs.length = 0 := fun h0 => hne (List.length_eq_zero.1 h0)
  rw [if_neg hlen]
  dsimp only
  rw [Find_fail env s _ _ e h]

theorem GetUserReadSeqs_success (env : Collaborator) (s : Collection) (u : String)
    (cs : List String) (hne : cs ≠ []) (hok : (GetUserReadSeqs env u cs s).1.2 = none) :
    env s.calls = none := by
  cases henv : env s.calls with
  | none => rfl
  | some e =>
    rw [GetUserReadSeqs_fail env s u cs hne e henv] at hok
    cases hok

/-- C7: on empty input, with any collaborator (one that fails every call
included), `GetUserReadSeqs` and `GetConversationsUserReadSeqs` return the empty
mapping with no error, make no collaborator call and leave the store as it is. -/
theorem empty_input_no_collaborator_call (env : Collaborator) (s : Collection) (u : String) :
    (GetUserReadSeqs env u [] s).1 = ([], none)
    ∧ (GetUserReadSeqs env u [] s).2 = s
    ∧ (GetUserReadSeqs env u [] s).2.calls = s.calls
    ∧ (GetConversationsUserReadSeqs env [] s).1 = ([], none)
    ∧ (GetConversationsUserReadSeqs env [] s).2 = s
    ∧ (GetConversationsUserReadSeqs env [] s).2.calls = s.calls
    ∧ (GetUserReadSeqs alwaysFails u [] s).1 = ([], none)
    ∧ (GetConversationsUserReadSeqs alwaysFails [] s).1 = ([], none) :=
  ⟨rfl, rfl, rfl, rfl, rfl, rfl, rfl, rfl⟩

/-- C5: for a non-empty list of conversation IDs (duplicates allowed), when the
query succeeds the mapping returned by `GetUserReadSeqs(u, cs)` has an entry for
exactly the IDs that occur in `cs`, each key once, and an ID of `cs` for which
the user has no record is mapped to 0. -/
theorem GetUserReadSeqs_keys (env : Collaborator) (s : Collection) (u : String)
    (cs : List String) (hne : cs ≠ []) (hok : (GetUserReadSeqs env u cs s).1.2 = none) :
    (∀ c, ((GetUserReadSeqs env u cs s).1.1.get c).isSome ↔ c ∈ cs)
    ∧ (∀ c, c ∈ (GetUserReadSeqs env u cs s).1.1.keys ↔ c ∈ cs)
    ∧ (GetUserReadSeqs env u cs s).1.1.keys.Nodup
    ∧ (∀ c ∈ cs, ¬ HasRecord s.docs c u →
        (GetUserReadSeqs env u cs s).1.1.get c = some 0) := by
  have henv := GetUserReadSeqs_success env s u cs hne hok
  rw [GetUserReadSeqs_ok env s u cs hne henv]
  dsimp only
  have hsome : ∀ c, ((notFoundSet0 (queriedReadSeqs s.docs u cs) cs).get c).isSome
      ↔ c ∈ cs := by
    intro c
    rw [notFoundSet0_get]
    cases hq : (queriedReadSeqs s.docs u cs).get c with
    | some v => simp [(queriedReadSeqs_get_some s.docs u cs c v hq).1]
    | none =>
      dsimp only
      by_cases hc : c ∈ cs <;> simp [hc]
  refine ⟨hsome, ?_, ?_, ?_⟩
  · intro c
    rw [← GoMap.get_isSome_iff]
    exact hsome c
  · exact notFoundSet0_keys_nodup _ _ (readLoop_keys_nodup _ [] List.nodup_nil)
  · intro c hc hno
    rw [notFoundSet0_get]
    cases hq : (queriedReadSeqs s.docs u cs).get c with
    | some v =>
      obtain ⟨_, d, hd, hdu, hdc, _⟩ := queriedReadSeqs_get_some s.docs u cs c v hq
      exact absurd ⟨d, hd, hdu, hdc⟩ hno
    | none => simp [hc]

/-- C5 on the example of the specification: only `c1` has a record, with read
position 5, and `c2` is mapped to 0. -/
theorem GetUserReadSeqs_keys_witness :
    (GetUserReadSeqs neverFails "u" ["c1", "c2"] ⟨[⟨"u", "c1", 0, 0, 5⟩], 0⟩).1.1.get "c2"
      = some 0 :=
  (GetUserReadSeqs_keys neverFails ⟨[⟨"u", "c1", 0, 0, 5⟩], 0⟩ "u" ["c1", "c2"] (by decide)
    (by decide)).2.2.2 "c2" (by decide) (by simp [HasRecord])

/-- C10: with at most one record per key and a collaborator that does not fail,
for a non-empty request `cs` and every `c` in `cs` the entry of `c` in
`GetUserReadSeqs(u, cs)` is the value that `GetUserReadSeq(c, u)` returns;
without the hypothesis on the keys the two can differ: with two records for one
key the point read returns the read position of the first one and the batch read
the read position of the last one. -/
theorem batch_read_agrees_with_point_read :
    (∀ (env : Collaborator) (s : Collection) (u : String) (cs : List String) (c : String),
      UniqueKeys s.docs → cs ≠ [] → c ∈ cs → Reliable env →
        (GetUserReadSeqs env u cs s).1.2 = none
        ∧ (GetUserReadSeq env c u s).1.2 = none
        ∧ (GetUserReadSeqs env u cs s).1.1.get c = some (GetUserReadSeq env c u s).1.1)
    ∧ ((GetUserReadSeq neverFails "c" "u"
          ⟨[⟨"u", "c", 0, 0, 7⟩, ⟨"u", "c", 0, 0, 9⟩], 0⟩).1 = (7, none)
        ∧ (GetUserReadSeqs neverFails "u" ["c"]
          ⟨[⟨"u", "c", 0, 0, 7⟩, ⟨"u", "c", 0, 0, 9⟩], 0⟩).1 = ([("c", 9)], none)) := by
  refine ⟨?_, by decide⟩
  intro env s u cs c hu hne hc hr
  rw [GetUserReadSeqs_ok env s u cs hne (hr _), getSeq_read env s c u (hr _)]
  refine ⟨rfl, rfl, ?_⟩
  dsimp only
  rw [notFoundSet0_get]
  cases hq : (queriedReadSeqs s.docs u cs).get c with
  | some v =>
    obtain ⟨_, d, hd, hdu, hdc, hdv⟩ := queriedReadSeqs_get_some s.docs u cs c v hq
    dsimp only
    rw [← hdc, ← hdu, counterOf_of_mem SeqUser.ReadSeq s.docs hu d hd, hdv]
  | none =>
    dsimp only
    rw [if_pos hc, counterOf_no_record _ _ _ _ (queriedReadSeqs_get_none s.docs u cs c hc hq)]

/-- C10 on the example of the specification: the batch entry of `c1` is the
point read of `c1`. -/
theorem batch_read_agrees_with_point_read_witness :
    UniqueKeys [(⟨"u", "c1", 0, 0, 5⟩ : SeqUser)]
    ∧ (GetUserReadSeqs neverFails "u" ["c1", "c2"] ⟨[⟨"u", "c1", 0, 0, 5⟩], 0⟩).1.1.get "c1"
        = some (GetUserReadSeq neverFails "c1" "u" ⟨[⟨"u", "c1", 0, 0, 5⟩], 0⟩).1.1 :=
  ⟨uniqueKeys_single _,
    (batch_read_agrees_with_point_read.1 neverFails ⟨[⟨"u", "c1", 0, 0, 5⟩], 0⟩ "u"
      ["c1", "c2"] "c1" (uniqueKeys_single _) (by decide) (by decide) (fun _ => rfl)).2.2⟩

/-! ## The multi-conversation read, evaluated -/

theorem GoMap.get_cons {κ α : Type} [DecidableEq κ] (k : κ) (v : α) (rest : GoMap κ α)
    (key : κ) :
    GoMap.get ((k, v) :: rest) key = if k = key then some v else GoMap.get rest key := by
  simp [GoMap.get]

/-- The set built from a list of user IDs contains exactly the IDs of the list. -/
theorem userSet_get (us : List String) (acc : GoMap String Unit) (u : String) :
    ((us.foldl (fun st uid => st.set uid ()) acc).get u).isSome
      ↔ (acc.get u).isSome ∨ u ∈ us := by
  induction us generalizing acc with
  | nil => simp
  | cons k rest ih =>
    rw [List.foldl_cons, ih, GoMap.get_set]
    by_cases hk : k = u
    · simp [hk]
    · have hne : ¬ u = k := fun h => hk h.symm
      simp only [hk, if_false, List.mem_cons, hne, false_or]

/-- The first loop of `GetConversationsUserReadSeqs`, from any accumulator: the
conversation IDs are appended in order, and a conversation of the request is
mapped to the set of its users. -/
theorem collectLoop (m : GoMap String (List String)) (hm : m.keys.Nodup)
    (acc : List String × GoMap String (GoMap String Unit)) :
    (m.foldl
        (fun acc entry =>
          (acc.1 ++ [entry.1],
            acc.2.set entry.1 (entry.2.foldl (fun st uid => st.set uid ()) [])))
        acc).1 = acc.1 ++ m.keys
    ∧ ∀ c, (m.foldl
        (fun acc entry =>
          (acc.1 ++ [entry.1],
            acc.2.set entry.1 (entry.2.foldl (fun st uid => st.set uid ()) [])))
        acc).2.get c
      = match m.get c with
        | some us => some (us.foldl (fun st uid => st.set uid ()) [])
        | none => acc.2.get c := by
  induction m generalizing acc with
  | nil =>
    refine ⟨by simp [GoMap.keys], ?_⟩
    intro c
    rfl
  | cons e rest ih =>
    obtain ⟨k, us⟩ := e
    have hk : k ∉ GoMap.keys rest := by
      have := hm
      simp only [GoMap.keys, List.map_cons, List.nodup_cons] at this
      exact this.1
    have hrest : (GoMap.keys rest).Nodup := by
      have := hm
      simp only [GoMap.keys, List.map_cons, List.nodup_cons] at this
      exact this.2
    rw [List.foldl_cons]
    obtain ⟨h1, h2⟩ := ih hrest
      (acc.1 ++ [k], acc.2.set k (us.foldl (fun st uid => st.set uid ()) []))
    refine ⟨?_, ?_⟩
    · rw [h1]
      simp [GoMap.keys]
    · intro c
      rw [h2 c]
      dsimp only
      rw [GoMap.get_cons]
      by_cases hkc : k = c
      · subst hkc
        have hnone : GoMap.get rest k = none := by
          cases hg : GoMap.get rest k with
          | none => rfl
          | some v =>
            exfalso
            apply hk
            rw [← GoMap.get_isSome_iff, hg]
            rfl
        rw [if_pos rfl, hnone]
        dsimp only
        rw [GoMap.get_set, if_pos rfl]
      · rw [if_neg hkc]
        cases GoMap.get rest c with
        | some v => rfl
        | none =>
          dsimp only
          rw [GoMap.get_set, if_neg hkc]

/-- The outcome of the first loop of `GetConversationsUserReadSeqs` on a request
mapping. -/
theorem collectRequest_spec (m : GoMap String (List String)) (hm : m.keys.Nodup) :
    (collectRequest m).1 = m.keys
    ∧ ∀ c u, (∃ set, (collectRequest m).2.get c = some set ∧ (set.get u).isSome)
        ↔ Requested m c u := by
  obtain ⟨h1, h2⟩ := collectLoop m hm ([], [])
  unfold collectRequest
  refine ⟨by simpa using h1, ?_⟩
  intro c u
  rw [h2 c]
  unfold Requested
  cases m.get c with
  | none => simp [GoMap.get]
  | some us =>
    simp only [Option.some.injEq, exists_eq_left']
    rw [userSet_get]
    simp [GoMap.get]

/-- One round of the second loop of `GetConversationsUserReadSeqs`: a record of
a requested user is written, any other record is skipped. -/
theorem groupStep_eq (sets : GoMap String (GoMap String Unit))
    (res : GoMap String (GoMap String Int)) (e : SeqUser) :
    groupStep sets res e
      = if (∃ set, sets.get e.ConversationID = some set ∧ (set.get e.UserID).isSome)
        then res.set e.ConversationID
          (((res.get e.ConversationID).getD []).set e.UserID e.ReadSeq)
        else res := by
  unfold groupStep
  split
  · rename_i hs
    simp [hs]
  · rename_i set hs
    split
    · rename_i hu
      simp [hs, hu]
    · rename_i x hu
      have hreq : ∃ st, sets.get e.ConversationID = some st ∧ (st.get e.UserID).isSome :=
        ⟨set, hs, by rw [hu]; rfl⟩
      rw [if_pos hreq]
      cases res.get e.ConversationID <;> rfl

/-- One round of the second loop, seen through the nested index expression. -/
theorem groupStep_get2 (sets : GoMap String (GoMap String Unit))
    (res : GoMap String (GoMap String Int)) (e : SeqUser) (c u : String) :
    (groupStep sets res e).get2 c u
      = if (∃ set, sets.get e.ConversationID = some set ∧ (set.get e.UserID).isSome)
            ∧ e.ConversationID = c ∧ e.UserID = u
        then some e.ReadSeq else res.get2 c u := by
  rw [groupStep_eq]
  by_cases hreq : ∃ set, sets.get e.ConversationID = some set ∧ (set.get e.UserID).isSome
  · rw [if_pos hreq]
    simp only [hreq, true_and]
    unfold GoMap.get2
    rw [GoMap.get_set]
    by_cases hc : e.ConversationID = c
    · subst hc
      simp only [if_true, true_and]
      rw [GoMap.get_set]
      by_cases hu2 : e.UserID = u
      · simp [hu2]
      · simp only [hu2, if_false]
        cases res.get e.ConversationID <;> simp [GoMap.get]
    · simp [hc]
  · rw [if_neg hreq]
    simp [hreq]

/-- One round of the second loop keeps every inner mapping non-empty. -/
theorem groupStep_inner (sets : GoMap String (GoMap String Unit))
    (res : GoMap String (GoMap String Int)) (e : SeqUser)
    (h : ∀ c inner, res.get c = some inner → inner ≠ []) :
    ∀ c inner, (groupStep sets res e).get c = some inner → inner ≠ [] := by
  intro c inner
  rw [groupStep_eq]
  split
  · rw [GoMap.get_set]
    split
    · intro heq
      rw [← Option.some.inj heq]
      exact GoMap.set_ne_nil _ _ _
    · exact h c inner
  · exact h c inner

theorem groupStep_keys_nodup (sets : GoMap String (GoMap String Unit))
    (res : GoMap String (GoMap String Int)) (e : SeqUser) (h : res.keys.Nodup) :
    (groupStep sets res e).keys.Nodup := by
  rw [groupStep_eq]
  split
  · exact GoMap.keys_set_nodup _ _ _ h
  · exact h

/-- An entry of the result of the second loop comes from the accumulator or from
a record of a requested user. -/
theorem groupLoop_get2_some (sets : GoMap String (GoMap String Unit)) (seqs : List SeqUser)
    (acc : GoMap String (GoMap String Int)) (c u : String) (v : Int)
    (h : (seqs.foldl (groupStep sets) acc).get2 c u = some v) :
    acc.get2 c u = some v
    ∨ ∃ e ∈ seqs, (∃ set, sets.get c = some set ∧ (set.get u).isSome)
        ∧ e.ConversationID = c ∧ e.UserID = u ∧ e.ReadSeq = v := by
  induction seqs generalizing acc with
  | nil => exact Or.inl h
  | cons d rest ih =>
    rw [List.foldl_cons] at h
    rcases ih _ h with h1 | ⟨e, he, h2⟩
    · rw [groupStep_get2] at h1
      split at h1
      · rename_i hcond
        obtain ⟨hreq, hc, hu⟩ := hcond
        refine Or.inr ⟨d, List.mem_cons_self _ _, ?_, hc, hu, Option.some.inj h1⟩
        rw [← hc, ← hu]
        exact hreq
      · exact Or.inl h1
    · exact Or.inr ⟨e, List.mem_cons_of_mem _ he, h2⟩

/-- A record of a requested user has an entry in the result of the second loop. -/
theorem groupLoop_get2_isSome (sets : GoMap String (GoMap String Unit)) (seqs : List SeqUser)
    (acc : GoMap String (GoMap String Int)) (c u : String)
    (h : (acc.get2 c u).isSome
      ∨ ∃ e ∈ seqs, (∃ set, sets.get c = some set ∧ (set.get u).isSome)
          ∧ e.ConversationID = c ∧ e.UserID = u) :
    ((seqs.foldl (groupStep sets) acc).get2 c u).isSome := by
  induction seqs generalizing acc with
  | nil =>
    rcases h with h | ⟨e, he, _⟩
    · exact h
    · cases he
  | cons d rest ih =>
    rw [List.foldl_cons]
    apply ih
    rcases h with h | ⟨e, he, hreq, hc, hu⟩
    · left
      rw [groupStep_get2]
      split
      · rfl
      · exact h
    · rcases List.mem_cons.1 he with rfl | hmem
      · left
        rw [groupStep_get2, if_pos ⟨by rw [hc, hu]; exact hreq, hc, hu⟩]
        rfl
      · exact Or.inr ⟨e, hmem, hreq, hc, hu⟩

theorem groupLoop_inner (sets : GoMap String (GoMap String Unit)) (seqs : List SeqUser)
    (acc : GoMap String (GoMap String Int))
    (h : ∀ c inner, acc.get c = some inner → inner ≠ []) :
    ∀ c inner, (seqs.foldl (groupStep sets) acc).get c = some inner → inner ≠ [] := by
  induction seqs generalizing acc with
  | nil => exact h
  | cons d rest ih =>
    rw [List.foldl_cons]
    exact ih _ (groupStep_inner sets acc d h)

theorem groupLoop_keys_nodup (sets : GoMap String (GoMap String Unit)) (seqs : List SeqUser)
    (acc : GoMap String (GoMap String Int)) (h : acc.keys.Nodup) :
    (seqs.foldl (groupStep sets) acc).keys.Nodup := by
  induction seqs generalizing acc with
  | nil => exact h
  | cons d rest ih =>
    rw [List.foldl_cons]
    exact ih _ (groupStep_keys_nodup sets acc d h)

/-- The records that the query of `GetConversationsUserReadSeqs` returns. -/
theorem mem_convSeqs (docs : List SeqUser) (ids : List String) (e : SeqUser) :
    e ∈ (docs.filter (fun d => decide (d.ConversationID ∈ ids))).map
          (SeqUser.project ["conversation_id", "user_id", "read_seq"])
      ↔ ∃ d ∈ docs, d.ConversationID ∈ ids
          ∧ e = ⟨d.UserID, d.ConversationID, 0, 0, d.ReadSeq⟩ := by
  simp only [List.mem_map, List.mem_filter, decide_eq_true_eq, project_conv_user_read]
  constructor
  · rintro ⟨d, ⟨hd, hc⟩, rfl⟩
    exact ⟨d, hd, hc, rfl⟩
  · rintro ⟨d, hd, hc, rfl⟩
    exact ⟨d, ⟨hd, hc⟩, rfl⟩

/-- What `GetConversationsUserReadSeqs` returns for a non-empty request when its
query does not fail. -/
theorem GetConversationsUserReadSeqs_ok (env : Collaborator) (s : Collection)
    (m : GoMap String (List String)) (hne : m ≠ []) (h : env s.calls = none) :
    GetConversationsUserReadSeqs env m s
      = ((groupRequested (collectRequest m).2
            ((s.docs.filter (fun d => decide (d.ConversationID ∈ (collectRequest m).1))).map
              (SeqUser.project ["conversation_id", "user_id", "read_seq"])), none), s.tick) := by
  unfold GetConversationsUserReadSeqs
  have hlen : ¬ m.length = 0 := fun h0 => hne (List.length_eq_zero.1 h0)
  rw [if_neg hlen]
  dsimp only
  rw [Find_ok env s _ _ h, matchesFilter_convIn]

theorem GetConversationsUserReadSeqs_fail (env : Collaborator) (s : Collection)
    (m : GoMap String (List String)) (hne : m ≠ []) (e : MongoError)
    (h : env s.calls = some e) :
    GetConversationsUserReadSeqs env m s = (([], some e), s.tick) := by
  unfold GetConversationsUserReadSeqs
  have hlen : ¬ m.length = 0 := fun h0 => hne (List.length_eq_zero.1 h0)
  rw [if_neg hlen]
  dsimp only
  rw [Find_fail env s _ _ e h]

theorem GetConversationsUserReadSeqs_success (env : Collaborator) (s : Collection)
    (m : GoMap String (List String)) (hne : m ≠ [])
    (hok : (GetConversationsUserReadSeqs env m s).1.2 = none) : env s.calls = none := by
  cases henv : env s.calls with
  | none => rfl
  | some e =>
    rw [GetConversationsUserReadSeqs_fail env s m hne e henv] at hok
    cases hok

theorem requested_mem_keys (m : GoMap String (List String)) (c u : String)
    (h : Requested m c u) : c ∈ m.keys := by
  obtain ⟨us, hus, _⟩ := h
  rw [← GoMap.get_isSome_iff, hus]
  rfl

/-- C6: with at most one record per key, for a non-empty request mapping `m`
(a Go map, so with distinct keys), when the query succeeds the result `r` of
`GetConversationsUserReadSeqs(m)` has an entry `r[c][u]` if and only if `c` is
a key of `m`, `u` occurs in `m[c]` and the store has a record for `(u, c)`,
and the entry is the read position of that record; a requested pair without a
record and a user that was not requested for `c` have no entry, and no inner
mapping of `r` is empty. -/
theorem GetConversationsUserReadSeqs_entries (env : Collaborator) (s : Collection)
    (m : GoMap String (List String)) (hu : UniqueKeys s.docs) (hm : m.keys.Nodup)
    (hne : m ≠ []) (hok : (GetConversationsUserReadSeqs env m s).1.2 = none) :
    (∀ c u v, (GetConversationsUserReadSeqs env m s).1.1.get2 c u = some v
        ↔ (Requested m c u
            ∧ ∃ d ∈ s.docs, d.UserID = u ∧ d.ConversationID = c ∧ d.ReadSeq = v))
    ∧ (∀ c u, ((GetConversationsUserReadSeqs env m s).1.1.get2 c u).isSome
        ↔ (Requested m c u ∧ HasRecord s.docs c u))
    ∧ (∀ c u, ¬ HasRecord s.docs c u →
        (GetConversationsUserReadSeqs env m s).1.1.get2 c u = none)
    ∧ (∀ c u, ¬ Requested m c u →
        (GetConversationsUserReadSeqs env m s).1.1.get2 c u = none)
    ∧ (∀ c inner, (GetConversationsUserReadSeqs env m s).1.1.get c = some inner → inner ≠ [])
    ∧ (GetConversationsUserReadSeqs env m s).1.1.keys.Nodup := by
  have henv := GetConversationsUserReadSeqs_success env s m hne hok
  rw [GetConversationsUserReadSeqs_ok env s m hne henv]
  dsimp only
  obtain ⟨hids, hsets⟩ := collectRequest_spec m hm
  rw [hids]
  unfold groupRequested
  have hfwd : ∀ c u v,
      (List.foldl (groupStep (collectRequest m).2) []
        ((s.docs.filter (fun d => decide (d.ConversationID ∈ m.keys))).map
          (SeqUser.project ["conversation_id", "user_id", "read_seq"]))).get2 c u = some v →
      Requested m c u ∧ ∃ d ∈ s.docs, d.UserID = u ∧ d.ConversationID = c ∧ d.ReadSeq = v := by
    intro c u v h
    rcases groupLoop_get2_some _ _ [] c u v h with h1 | ⟨e, he, hreq, hc, hu1, hv⟩
    · simp [GoMap.get2, GoMap.get] at h1
    · obtain ⟨d, hd, _, rfl⟩ := (mem_convSeqs s.docs m.keys e).1 he
      exact ⟨(hsets c u).1 hreq, d, hd, hu1, hc, hv⟩
  have hbwd : ∀ c u, Requested m c u → HasRecord s.docs c u →
      ((List.foldl (groupStep (collectRequest m).2) []
        ((s.docs.filter (fun d => decide (d.ConversationID ∈ m.keys))).map
          (SeqUser.project ["conversation_id", "user_id", "read_seq"]))).get2 c u).isSome := by
    intro c u hreq hrec
    obtain ⟨d, hd, hdu, hdc⟩ := hrec
    apply groupLoop_get2_isSome
    right
    refine ⟨⟨d.UserID, d.ConversationID, 0, 0, d.ReadSeq⟩, ?_, (hsets c u).2 hreq, hdc, hdu⟩
    exact (mem_convSeqs s.docs m.keys _).2
      ⟨d, hd, hdc ▸ requested_mem_keys m c u hreq, rfl⟩
  have hnone : ∀ c u, ¬ (Requested m c u ∧ HasRecord s.docs c u) →
      (List.foldl (groupStep (collectRequest m).2) []
        ((s.docs.filter (fun d => decide (d.ConversationID ∈ m.keys))).map
          (SeqUser.project ["conversation_id", "user_id", "read_seq"]))).get2 c u = none := by
    intro c u hnot
    cases hg : (List.foldl (groupStep (collectRequest m).2) []
        ((s.docs.filter (fun d => decide (d.ConversationID ∈ m.keys))).map
          (SeqUser.project ["conversation_id", "user_id", "read_seq"]))).get2 c u with
    | none => rfl
    | some v =>
      obtain ⟨hreq, d, hd, hdu, hdc, _⟩ := hfwd c u v hg
      exact absurd ⟨hreq, d, hd, hdu, hdc⟩ hnot
  refine ⟨?_, ?_, ?_, ?_, ?_, ?_⟩
  · intro c u v
    constructor
    · exact hfwd c u v
    · rintro ⟨hreq, d, hd, hdu, hdc, hdv⟩
      have hsome := hbwd c u hreq ⟨d, hd, hdu, hdc⟩
      cases hg : (List.foldl (groupStep (collectRequest m).2) []
        ((s.docs.filter (fun d => decide (d.ConversationID ∈ m.keys))).map
          (SeqUser.project ["conversation_id", "user_id", "read_seq"]))).get2 c u with
      | none =>
        rw [hg] at hsome
        cases hsome
      | some w =>
        obtain ⟨_, d2, hd2, hdu2, hdc2, hdv2⟩ := hfwd c u w hg
        have e1 := firstOfKey_of_mem s.docs hu d hd
        have e2 := firstOfKey_of_mem s.docs hu d2 hd2
        rw [hdu, hdc] at e1
        rw [hdu2, hdc2, e1] at e2
        have : d = d2 := Option.some.inj e2
        rw [← hdv2, ← this, hdv]
  · intro c u
    constructor
    · intro h
      cases hg : (List.foldl (groupStep (collectRequest m).2) []
        ((s.docs.filter (fun d => decide (d.ConversationID ∈ m.keys))).map
          (SeqUser.project ["conversation_id", "user_id", "read_seq"]))).get2 c u with
      | none =>
        rw [hg] at h
        cases h
      | some v =>
        obtain ⟨hreq, d, hd, hdu, hdc, _⟩ := hfwd c u v hg
        exact ⟨hreq, d, hd, hdu, hdc⟩
    · rintro ⟨hreq, hrec⟩
      exact hbwd c u hreq hrec
  · intro c u hno
    exact hnone c u (fun h => hno h.2)
  · intro c u hno
    exact hnone c u (fun h => hno h.1)
  · exact groupLoop_inner _ _ [] (by intro c inner h; simp [GoMap.get] at h)
  · exact groupLoop_keys_nodup _ _ [] List.nodup_nil

theorem uniqueKeys_of_nodup (docs : List SeqUser) (h : (docs.map keyOf).Nodup) :
    UniqueKeys docs :=
  (uniqueKeys_iff_nodup docs).2 h

/-- C6 on the example of the specification: records for `(c1,u1)` with read
position 7 and for `(c1,u3)` with read position 9, request of `u1` and `u2` in
`c1`: the result holds 7 for `u1`. -/
theorem GetConversationsUserReadSeqs_entries_witness :
    (GetConversationsUserReadSeqs neverFails [("c1", ["u1", "u2"])]
        ⟨[⟨"u1", "c1", 0, 0, 7⟩, ⟨"u3", "c1", 0, 0, 9⟩], 0⟩).1.1.get2 "c1" "u1" = some 7 :=
  ((GetConversationsUserReadSeqs_entries neverFails
      ⟨[⟨"u1", "c1", 0, 0, 7⟩, ⟨"u3", "c1", 0, 0, 9⟩], 0⟩ [("c1", ["u1", "u2"])]
      (uniqueKeys_of_nodup _ (by decide)) (by decide) (by decide) (by decide)).1
    "c1" "u1" 7).2
    ⟨⟨["u1", "u2"], by decide, by decide⟩, ⟨"u1", "c1", 0, 0, 7⟩, by decide, rfl, rfl, rfl⟩

end Mgo
